import Mathlib

/-!
Verification of the library-catalog model (`book/models.py`) and the seed
command (`book/management/commands/create_initial_data.py`).

The Django ORM layer is shallowly embedded: the database is an explicit
`Store` of association lists keyed by auto-incremented primary keys, Python
ints are `Int` (`PositiveIntegerField` is a column declaration only; the
in-memory Python value is an ordinary int and may go negative), Python
strings are Lean `String`, and a method that can raise returns
`Except SaveErr Store`.  Each `save` hook from the source is translated
line by line.
-/

namespace LibraryModel

/-- `Book` model: the two copy counters (the only fields read or written by
the availability logic).  Python ints, hence `Int`. -/
structure Book where
  total_copies : Int
  available_copies : Int
deriving Repr, DecidableEq

/-- `BookInstance` model: owning book id, auto-generated inventory number,
condition string and availability flag. -/
structure BookInstance where
  bookId : Nat
  inventory_number : String
  condition : String
  is_available : Bool
deriving Repr, DecidableEq

/-- `Borrowing` model: foreign keys by id, timestamps as abstract `Int`
instants, the `is_returned` flag and the fine amount. -/
structure Borrowing where
  instId : Nat
  borrowerId : Nat
  borrow_date : Int
  due_date : Int
  return_date : Option Int
  is_returned : Bool
  fine : Int
deriving Repr, DecidableEq

/-- The database: association lists `primary key ↦ row` in insertion order
(auto-increment pks are the `next*` counters), plus the borrower accounts
(only their ids matter to this code). -/
structure Store where
  books : List (Nat × Book)
  insts : List (Nat × BookInstance)
  borrows : List (Nat × Borrowing)
  users : List Nat
  nextBookId : Nat
  nextInstId : Nat
  nextPk : Nat
deriving Repr, DecidableEq

/-- Row lookup by primary key (first match). -/
def lookupA {α : Type} : List (Nat × α) → Nat → Option α
  | [], _ => none
  | p :: rest, k => if p.1 = k then some p.2 else lookupA rest k

/-- Row update by primary key (an SQL UPDATE; keys are untouched). -/
def updateA {α : Type} (l : List (Nat × α)) (k : Nat) (v : α) : List (Nat × α) :=
  l.map fun p => if p.1 = k then (p.1, v) else p

/-- The keys of an association list. -/
def keysA {α : Type} (l : List (Nat × α)) : List Nat := l.map (·.1)

/-! ### Decimal formatting and parsing

Models Python `f"{n:03d}"` / `f"{n:04d}"` and `int(...)` as used by
`BookInstance.save` for inventory numbers. -/

/-- The character of a single decimal digit (argument is always < 10). -/
def digitChar : Nat → Char
  | 0 => '0'
  | 1 => '1'
  | 2 => '2'
  | 3 => '3'
  | 4 => '4'
  | 5 => '5'
  | 6 => '6'
  | 7 => '7'
  | 8 => '8'
  | _ => '9'

/-- Digit-list worker, structurally recursive on a fuel bound (any fuel
at least the number itself computes its full decimal expansion). -/
def natDecimalGo (fuel : Nat) (n : Nat) : List Char :=
  match fuel with
  | 0 => [digitChar n]
  | f + 1 =>
    if n < 10 then [digitChar n]
    else natDecimalGo f (n / 10) ++ [digitChar (n % 10)]

/-- Decimal digit list of a natural number, most significant first
(Python `str(n)` for a nonnegative int). -/
def natDecimal (n : Nat) : List Char := natDecimalGo n n

/-- Zero padding to a minimum width: `f"{n:0wd}"` pads on the left with
zeros and never truncates. -/
def padZeros (w : Nat) (ds : List Char) : List Char :=
  List.replicate (w - ds.length) '0' ++ ds

/-- Numeric value of a digit string (the value `int(...)` returns on it). -/
def decValue (ds : List Char) : Nat :=
  ds.foldl (fun a c => 10 * a + (c.toNat - 48)) 0

/-- Python `int(s)` on the strings this code produces: defined on nonempty
all-digit strings, raises (`none`) otherwise.  (Signs and whitespace,
which `int` also accepts, never occur in generated inventory numbers; the
spec leaves non-conforming numbers as an open question.) -/
def parseDecimal (s : String) : Option Nat :=
  if s.data ≠ [] ∧ s.data.all Char.isDigit = true then some (decValue s.data) else none

/-- Python `s.split('-')[-1]`: the characters after the last hyphen (the
whole string when there is none). -/
def afterLastDash (s : String) : String :=
  ⟨(s.data.reverse.takeWhile (fun c => c != '-')).reverse⟩

/-- The characters before the last hyphen (used only in proofs, to invert
`invNumStr`). -/
def beforeLastDash (s : String) : String :=
  ⟨((s.data.reverse.dropWhile fun c => c != '-').drop 1).reverse⟩

/-- The generated inventory number `f"{book_id:03d}-{num:04d}"`. -/
def invNumStr (bid seq : Nat) : String :=
  ⟨padZeros 3 (natDecimal bid) ++ '-' :: padZeros 4 (natDecimal seq)⟩

/-! ### The save hooks of `models.py` -/

/-- Errors a save can raise: the `ValueError` of `Borrowing.save` plus the
access errors the ORM raises on dangling references or an unparsable
inventory suffix. -/
inductive SaveErr
  | instanceUnavailable
  | missingInstance
  | missingBook
  | missingBorrow
  | badInventory
deriving Repr, DecidableEq

/-- `Book.save`: clamp `available_copies` down to `total_copies` before
writing the row. -/
def bookSaveFields (b : Book) : Book :=
  if b.available_copies > b.total_copies then
    { b with available_copies := b.total_copies }
  else b

/-- `BookInstance.objects.filter(book=self.book).order_by('id').last()`:
rows are stored in id order, so this is the last matching row. -/
def lastInstanceOf (bid : Nat) (s : Store) : Option BookInstance :=
  ((s.insts.filter fun p => p.2.bookId == bid).map (·.2)).getLast?

/-- The inventory number an instance is saved under: generated when the
field is empty (sequence 1 for the first instance of the book, otherwise
1 + the numeric suffix of the last-created one, `none` when that suffix
does not parse), kept as is otherwise. -/
def generatedInv (inst : BookInstance) (s : Store) : Option String :=
  if inst.inventory_number = "" then
    match lastInstanceOf inst.bookId s with
    | none => some (invNumStr inst.bookId 1)
    | some last =>
        (parseDecimal (afterLastDash last.inventory_number)).map
          fun k => invNumStr inst.bookId (k + 1)
  else some inst.inventory_number

/-- `BookInstance.save`: fill in the inventory number when it is empty,
then INSERT (`pk = none`, fresh id) or UPDATE (`pk = some iid`). -/
def bookInstanceSave (pk : Option Nat) (inst : BookInstance) (s : Store) :
    Except SaveErr Store :=
  match generatedInv inst s with
  | none => .error .badInventory
  | some iv =>
    let inst := { inst with inventory_number := iv }
    match pk with
    | some iid => .ok { s with insts := updateA s.insts iid inst }
    | none => .ok { s with insts := s.insts ++ [(s.nextInstId, inst)],
                           nextInstId := s.nextInstId + 1 }

/-- `Borrowing.save`.  New record (`pk = none`): if the instance is
available, flip it to unavailable, decrement the owning book's
`available_copies`, save book then instance, and INSERT the borrowing
under a fresh pk; otherwise raise `ValueError` before touching anything.
Existing record (`pk = some`): plain UPDATE, no side effects. -/
def borrowingSave (pk : Option Nat) (br : Borrowing) (s : Store) :
    Except SaveErr Store :=
  match pk with
  | some k => .ok { s with borrows := updateA s.borrows k br }
  | none =>
    match lookupA s.insts br.instId with
    | none => .error .missingInstance
    | some inst =>
      if inst.is_available then
        match lookupA s.books inst.bookId with
        | none => .error .missingBook
        | some bk =>
          let bk := bookSaveFields { bk with available_copies := bk.available_copies - 1 }
          let s := { s with books := updateA s.books inst.bookId bk }
          match bookInstanceSave (some br.instId) { inst with is_available := false } s with
          | .error e => .error e
          | .ok s =>
            .ok { s with borrows := s.borrows ++ [(s.nextPk, br)],
                         nextPk := s.nextPk + 1 }
      else .error .instanceUnavailable

/-- `CreateBorrowing(instance, borrower, borrow_date, due_date)`: build a
fresh `Borrowing` (`is_returned` and `fine` at their field defaults) and
save it with no pk. -/
def createBorrowing (iid uid : Nat) (bd dd : Int) (s : Store) : Except SaveErr Store :=
  borrowingSave none ⟨iid, uid, bd, dd, none, false, 0⟩ s

/-- `Borrowing.mark_as_returned`: a no-op when `is_returned` is already
true; otherwise stamp the record, flip the instance back to available,
increment the book's `available_copies`, then save book, instance and
borrowing in that order. -/
def markReturned (pk : Nat) (now : Int) (s : Store) : Except SaveErr Store :=
  match lookupA s.borrows pk with
  | none => .error .missingBorrow
  | some br =>
    if br.is_returned then .ok s
    else
      match lookupA s.insts br.instId with
      | none => .error .missingInstance
      | some inst =>
        match lookupA s.books inst.bookId with
        | none => .error .missingBook
        | some bk =>
          let bk := bookSaveFields { bk with available_copies := bk.available_copies + 1 }
          let s := { s with books := updateA s.books inst.bookId bk }
          match bookInstanceSave (some br.instId) { inst with is_available := true } s with
          | .error e => .error e
          | .ok s =>
            borrowingSave (some pk) { br with is_returned := true, return_date := some now } s

/-! ### Reachable states

The callers in scope (seed command, admin forms) reach states by creating
rows and invoking the hooks above; an operation that raises leaves the
store unchanged (the exception propagates before any further write — in
every state reachable below, the raising branches fire before the first
committed write, see the invariants proved later). -/

/-- One caller-level operation on the store. -/
inductive Op
  | createBook (total avail : Nat)
  | bookSave (bid : Nat) (total avail : Nat)
  | createInstance (bid : Nat) (cond : String)
  | createUser
  | createBorrow (iid uid : Nat) (bd dd : Int)
  | markRet (pk : Nat) (now : Int)
deriving Repr, DecidableEq

/-- Apply one operation; failed saves leave the store as it was. -/
def applyOp (s : Store) : Op → Store
  | .createBook t a =>
      { s with books := s.books ++ [(s.nextBookId, bookSaveFields ⟨(t : Int), (a : Int)⟩)],
               nextBookId := s.nextBookId + 1 }
  | .bookSave bid t a =>
      match lookupA s.books bid with
      | none => s
      | some _ => { s with books := updateA s.books bid (bookSaveFields ⟨(t : Int), (a : Int)⟩) }
  | .createInstance bid cond =>
      match bookInstanceSave none ⟨bid, "", cond, true⟩ s with
      | .ok s2 => s2
      | .error _ => s
  | .createUser => { s with users := s.users ++ [s.users.length] }
  | .createBorrow iid uid bd dd =>
      match createBorrowing iid uid bd dd s with
      | .ok s2 => s2
      | .error _ => s
  | .markRet pk now =>
      match markReturned pk now s with
      | .ok s2 => s2
      | .error _ => s

/-- The empty database. -/
def initStore : Store := ⟨[], [], [], [], 0, 0, 0⟩

/-- Run a sequence of operations from a state. -/
def runOps (l : List Op) (s : Store) : Store := l.foldl applyOp s

/-! ### The seed command, `Command.create_borrowings`

`create_initial_data.py` draws from the global random state and from Faker
each iteration; one iteration's draws are bundled into a `Choice`, and
the whole run is parameterized by the stream of choices.  Pool members are
snapshots of instance rows; within a run a snapshot is only ever mutated
in the iteration that picks it (and is then dropped from the pool), so the
store-level semantics below coincides with the object-level one. -/

/-- The random draws consumed by one loop iteration: pool index and user
index (`random.choice`), synthesized borrow timestamp and due date
(Faker + `randint`), the `random.random() < 0.55` return flag and the
`timezone.now()` instant seen by `mark_as_returned`. -/
structure Choice where
  instIdx : Nat
  userIdx : Nat
  borrowDate : Int
  dueDate : Int
  retFlag : Bool
  retDate : Int

/-- Result of a `create_borrowings` run: final store, remaining local
pool, counters, whether a save raised (the exception would propagate and
abort the whole seeding transaction), and whether the loop exited through
the empty-refresh `break`. -/
structure BorrowRun where
  store : Store
  pool : List Nat
  created : Nat
  tries : Nat
  raised : Bool
  brokeEmpty : Bool
deriving Repr, DecidableEq

/-- `BookInstance.objects.filter(is_available=True)`, as ids. -/
def availIds (s : Store) : List Nat :=
  (s.insts.filter fun p => p.2.is_available).map (·.1)

/-- One iteration of the borrowing loop, after `tries += 1` and the pool
refresh: `break` when even the refreshed pool is empty; otherwise pick a
random instance and user, create the Borrowing (an exception aborts the
run with `raised`), with the drawn probability mark it returned at once,
and drop the chosen instance from the local pool.  Returns either a final
result (`inl`) or the state the loop continues with (`inr`). -/
def loopStep (c : Choice) (users : List Nat) (s : Store) (pool2 : List Nat)
    (created tries2 : Nat) : BorrowRun ⊕ (Store × List Nat) :=
  if pool2.isEmpty then .inl ⟨s, pool2, created, tries2, false, true⟩
  else
    let iid := pool2.getD (c.instIdx % pool2.length) 0
    let uid := users.getD (c.userIdx % users.length) 0
    match createBorrowing iid uid c.borrowDate c.dueDate s with
    | .error _ => .inl ⟨s, pool2, created, tries2, true, false⟩
    | .ok s2 =>
      match (if c.retFlag then markReturned s.nextPk c.retDate s2 else .ok s2) with
      | .error _ => .inl ⟨s2, pool2, created, tries2, true, false⟩
      | .ok s3 => .inr (s3, pool2.filter fun j => j != iid)

/-- The `while created < count and tries < max_tries` loop.  `fuel` is the
number of tries still allowed (`max_tries - tries`), so the recursion is
structural; every iteration burns exactly one unit, mirroring
`tries += 1`. -/
def createBorrowingsGo (rho : Nat → Choice) (users : List Nat) (count : Nat) :
    Nat → Store → List Nat → Nat → Nat → BorrowRun
  | 0, s, pool, created, tries => ⟨s, pool, created, tries, false, false⟩
  | fuel + 1, s, pool, created, tries =>
    if created < count then
      match loopStep (rho tries) users s (if pool.isEmpty then availIds s else pool)
          created (tries + 1) with
      | .inl r => r
      | .inr (s3, pool3) => createBorrowingsGo rho users count fuel s3 pool3 (created + 1) (tries + 1)
    else ⟨s, pool, created, tries, false, false⟩

/-- `Command.create_borrowings(count)`: guards for users and available
instances (early return with an error message), then the bounded loop
with `max_tries = count * 10`. -/
def create_borrowings (count : Nat) (rho : Nat → Choice) (s : Store) : BorrowRun :=
  let users := s.users
  let available_instances := availIds s
  if users.isEmpty then ⟨s, [], 0, 0, false, false⟩
  else if available_instances.isEmpty then ⟨s, [], 0, 0, false, false⟩
  else createBorrowingsGo rho users count (count * 10) s available_instances 0 0

/-! ### Well-formedness and invariant predicates -/

/-- The keys of an association list are pairwise distinct. -/
def NodupKeys {α : Type} (l : List (Nat × α)) : Prop := (keysA l).Nodup

/-- Database well-formedness as the ORM guarantees it: distinct instance
pks, every instance's book exists, every stored instance has a nonempty
inventory number, and stored borrowing pks are below the auto-increment
counter.  All of it holds in every state the application can reach. -/
def WfStore (s : Store) : Prop :=
  NodupKeys s.insts ∧
  (∀ p ∈ s.insts, (lookupA s.books p.2.bookId).isSome = true ∧ p.2.inventory_number ≠ "") ∧
  (∀ q ∈ s.borrows, q.1 < s.nextPk)

instance (s : Store) : Decidable (WfStore s) :=
  inferInstanceAs (Decidable ((keysA s.insts).Nodup ∧
    (∀ p ∈ s.insts, (lookupA s.books p.2.bookId).isSome = true ∧ p.2.inventory_number ≠ "") ∧
    (∀ q ∈ s.borrows, q.1 < s.nextPk)))

/-- The open (not yet returned) borrowings against instance `iid`. -/
def openFor (iid : Nat) (l : List (Nat × Borrowing)) : List (Nat × Borrowing) :=
  l.filter fun p => p.2.instId == iid && !p.2.is_returned

/-- Inventory numbers of the instances of book `bid`, in creation order. -/
def instNumsOf (bid : Nat) (s : Store) : List String :=
  (s.insts.filter fun p => p.2.bookId == bid).map fun p => p.2.inventory_number

/-- Number of currently available instances. -/
def countAvail (s : Store) : Nat := (availIds s).length

/-- Loop invariant: every pool member is a stored instance that is
currently available. -/
def PoolWf (s : Store) (pool : List Nat) : Prop :=
  ∀ iid ∈ pool, ∃ i, lookupA s.insts iid = some i ∧ i.is_available = true

/-- Every stored book row satisfies the clamp bound. -/
def BooksClamped (s : Store) : Prop :=
  ∀ p ∈ s.books, p.2.available_copies ≤ p.2.total_copies

/-- Inductive invariant behind C5: instance pks are below the counter,
borrowings reference existing instances, borrowing pks are below the
counter and distinct, and each instance has exactly as many open
borrowings as its `is_available` flag dictates (0 when available, 1 when
not). -/
def AvailInv (s : Store) : Prop :=
  (∀ p ∈ s.insts, p.1 < s.nextInstId) ∧
  (∀ q ∈ s.borrows, (lookupA s.insts q.2.instId).isSome = true) ∧
  (∀ q ∈ s.borrows, q.1 < s.nextPk) ∧
  NodupKeys s.borrows ∧
  (∀ p ∈ s.insts, (openFor p.1 s.borrows).length = if p.2.is_available then 0 else 1)

/-- Inductive invariant behind C7: instance keys are fresh and distinct,
the instances of each book carry, in creation order, exactly the numbers
`invNumStr bid 1 … invNumStr bid k`, and all inventory numbers are
pairwise distinct store-wide. -/
def NumberingInv (s : Store) : Prop :=
  NodupKeys s.insts ∧
  (∀ p ∈ s.insts, p.1 < s.nextInstId) ∧
  (∀ bid, instNumsOf bid s =
    (List.range (instNumsOf bid s).length).map fun j => invNumStr bid (j + 1)) ∧
  ((s.insts.map fun p => p.2.inventory_number).Nodup)

/-! ### Concrete inputs used by witnesses and counterexamples -/

/-- One user, one book with a single copy, one instance, one open
borrowing on it (so the instance is unavailable, `available_copies = 0`). -/
def demoBorrowedStore : Store :=
  runOps [.createUser, .createBook 1 1, .createInstance 0 "good",
          .createBorrow 0 0 0 7] initStore

/-- One user, one book with two copies, two available instances. -/
def demoAvailStore : Store :=
  runOps [.createUser, .createBook 2 2, .createInstance 0 "good",
          .createInstance 0 "good"] initStore

/-- Trace refuting the lower bound of C3: shrink the book's counters with
a plain save while its instance is still available, then borrow it. -/
def c3CexOps : List Op :=
  [.createUser, .createBook 1 1, .createInstance 0 "good",
   .bookSave 0 1 0, .createBorrow 0 0 0 7]

/-- Trace leading to an open borrowing whose book already has
`available_copies = total_copies` (total shrunk after checkout), where
`mark_as_returned` cannot increment by 1 because `Book.save` clamps. -/
def c4CexOps : List Op :=
  [.createUser, .createBook 2 2, .createInstance 0 "good",
   .createInstance 0 "good", .createBorrow 0 0 0 7, .bookSave 0 1 1]

/-- Choice stream that always takes the first pool entry and always marks
the fresh borrowing returned. -/
def alwaysReturnChoice : Nat → Choice := fun _ => ⟨0, 0, 0, 7, true, 1⟩

/-- Choice stream that always takes the first pool entry and never marks
the borrowing returned. -/
def neverReturnChoice : Nat → Choice := fun _ => ⟨0, 0, 0, 7, false, 1⟩

example : invNumStr 7 12 = "007-0012" := by decide

example :
    lookupA (runOps [.createBook 2 2, .createInstance 0 "good"] initStore).insts 0 =
      some ⟨0, "000-0001", "good", true⟩ := by decide

example : (create_borrowings 5 alwaysReturnChoice demoAvailStore).created = 5 := by decide

example : (create_borrowings 5 neverReturnChoice demoAvailStore).created = 2 := by decide

example : lookupA (runOps c3CexOps initStore).books 0 = some ⟨1, -1⟩ := by decide

/-! ### Association-list lemmas -/

theorem lookupA_updateA_self {α : Type} (l : List (Nat × α)) (k : Nat) (v : α) :
    lookupA (updateA l k v) k = (lookupA l k).map fun _ => v := by
  induction l with
  | nil => rfl
  | cons p rest ih =>
    by_cases h : p.1 = k
    · simp [updateA, lookupA, h]
    · simpa [updateA, lookupA, h] using ih

theorem lookupA_updateA_ne {α : Type} (l : List (Nat × α)) (k j : Nat) (v : α)
    (h : j ≠ k) : lookupA (updateA l k v) j = lookupA l j := by
  induction l with
  | nil => rfl
  | cons p rest ih =>
    by_cases hp : p.1 = j
    · have hpk : p.1 ≠ k := by rw [hp]; exact h
      simp [updateA, lookupA, hp, hpk, h]
    · by_cases hpk : p.1 = k
      · have : k ≠ j := fun hk => h hk.symm
        simpa [updateA, lookupA, hp, hpk, this] using ih
      · simpa [updateA, lookupA, hp, hpk] using ih

theorem keysA_updateA {α : Type} (l : List (Nat × α)) (k : Nat) (v : α) :
    keysA (updateA l k v) = keysA l := by
  induction l with
  | nil => rfl
  | cons p rest ih =>
    by_cases h : p.1 = k <;> simpa [updateA, keysA, h] using ih

theorem lookupA_mem {α : Type} {l : List (Nat × α)} {k : Nat} {v : α}
    (h : lookupA l k = some v) : (k, v) ∈ l := by
  induction l with
  | nil => simp [lookupA] at h
  | cons p rest ih =>
    by_cases hp : p.1 = k
    · simp only [lookupA, hp, if_pos] at h
      cases h
      exact hp ▸ List.mem_cons_self _ _
    · simp only [lookupA, hp, if_neg, not_false_iff] at h
      exact List.mem_cons_of_mem _ (ih h)

theorem lookupA_isSome_iff {α : Type} (l : List (Nat × α)) (k : Nat) :
    (lookupA l k).isSome = true ↔ k ∈ keysA l := by
  induction l with
  | nil => simp [lookupA, keysA]
  | cons p rest ih =>
    by_cases hp : p.1 = k
    · simp [lookupA, keysA, hp]
    · simp [lookupA, keysA, hp, Ne.symm hp, ih]

theorem lookupA_append_left {α : Type} {l : List (Nat × α)} (r : List (Nat × α))
    {k : Nat} {v : α} (h : lookupA l k = some v) : lookupA (l ++ r) k = some v := by
  induction l with
  | nil => simp [lookupA] at h
  | cons p rest ih =>
    by_cases hp : p.1 = k
    · simpa [lookupA, hp] using h
    · simp only [lookupA, hp, if_neg, not_false_iff] at h ⊢
      exact ih h

theorem lookupA_append_right {α : Type} {l : List (Nat × α)} (r : List (Nat × α))
    {k : Nat} (h : lookupA l k = none) : lookupA (l ++ r) k = lookupA r k := by
  induction l with
  | nil => simp
  | cons p rest ih =>
    by_cases hp : p.1 = k
    · simp [lookupA, hp] at h
    · simp only [lookupA, hp, if_neg, not_false_iff] at h ⊢
      exact ih h

/-! ### Claims C1, C2, C9: the `Borrowing.save` write path -/

/-- C1: creating a Borrowing against an instance whose `is_available` is
false fails with the `InstanceUnavailable` error (`ValueError` in the
source), and the store — instance flag, book counters and the set of
Borrowing rows — is left exactly as it was. -/
theorem c1_createBorrowing_unavailable_fails (s : Store) (iid uid : Nat) (bd dd : Int)
    (i : BookInstance) (hl : lookupA s.insts iid = some i)
    (hav : i.is_available = false) :
    createBorrowing iid uid bd dd s = .error .instanceUnavailable ∧
    applyOp s (.createBorrow iid uid bd dd) = s := by
  have h1 : createBorrowing iid uid bd dd s = .error .instanceUnavailable := by
    simp [createBorrowing, borrowingSave, hl, hav]
  exact ⟨h1, by simp [applyOp, h1]⟩

/-- Witness for C1 at a concrete borrowed-out store. -/
theorem c1_createBorrowing_unavailable_fails_witness :
    lookupA demoBorrowedStore.insts 0 = some ⟨0, "000-0001", "good", false⟩ ∧
    (createBorrowing 0 0 1 8 demoBorrowedStore = .error .instanceUnavailable ∧
     applyOp demoBorrowedStore (.createBorrow 0 0 1 8) = demoBorrowedStore) :=
  ⟨by decide,
   c1_createBorrowing_unavailable_fails demoBorrowedStore 0 0 1 8
     ⟨0, "000-0001", "good", false⟩ (by decide) (by decide)⟩

/-- C2: creating a Borrowing against an available instance succeeds and
yields, in one step, exactly the postcondition state: the instance
unavailable, the book's `available_copies` decremented by exactly 1, and
the new open (`is_returned = false`) Borrowing row appended — no partial
application is possible.  The clamp hypothesis holds for every persisted
book (`Book.save` enforces it), and every persisted instance has a
nonempty inventory number. -/
theorem c2_createBorrowing_available_succeeds (s : Store) (iid uid : Nat) (bd dd : Int)
    (i : BookInstance) (bk : Book)
    (hl : lookupA s.insts iid = some i) (hav : i.is_available = true)
    (hinv : i.inventory_number ≠ "")
    (hb : lookupA s.books i.bookId = some bk)
    (hcl : bk.available_copies ≤ bk.total_copies) :
    ∃ s2, createBorrowing iid uid bd dd s = .ok s2 ∧
      lookupA s2.insts iid = some { i with is_available := false } ∧
      lookupA s2.books i.bookId = some { bk with available_copies := bk.available_copies - 1 } ∧
      s2.borrows = s.borrows ++ [(s.nextPk, ⟨iid, uid, bd, dd, none, false, 0⟩)] ∧
      s2.nextPk = s.nextPk + 1 := by
  have hnc : ¬ (bk.available_copies - 1 > bk.total_copies) := by omega
  have hrun : createBorrowing iid uid bd dd s = .ok
      { s with books := updateA s.books i.bookId ⟨bk.total_copies, bk.available_copies - 1⟩,
               insts := updateA s.insts iid { i with is_available := false },
               borrows := s.borrows ++ [(s.nextPk, ⟨iid, uid, bd, dd, none, false, 0⟩)],
               nextPk := s.nextPk + 1 } := by
    simp [createBorrowing, borrowingSave, hl, hav, hb, bookSaveFields, hnc,
      bookInstanceSave, generatedInv, hinv]
  refine ⟨_, hrun, ?_, ?_, rfl, rfl⟩
  · simp [lookupA_updateA_self, hl]
  · simp [lookupA_updateA_self, hb]

/-- Witness for C2 at a concrete store with an available instance. -/
theorem c2_createBorrowing_available_succeeds_witness :
    (lookupA demoAvailStore.insts 0 = some ⟨0, "000-0001", "good", true⟩ ∧
     lookupA demoAvailStore.books 0 = some ⟨2, 2⟩) ∧
    ∃ s2, createBorrowing 0 0 3 9 demoAvailStore = .ok s2 ∧
      lookupA s2.insts 0 = some ⟨0, "000-0001", "good", false⟩ ∧
      lookupA s2.books 0 = some ⟨2, 1⟩ ∧
      s2.borrows = demoAvailStore.borrows ++ [(demoAvailStore.nextPk, ⟨0, 0, 3, 9, none, false, 0⟩)] ∧
      s2.nextPk = demoAvailStore.nextPk + 1 :=
  ⟨⟨by decide, by decide⟩,
   c2_createBorrowing_available_succeeds demoAvailStore 0 0 3 9
     ⟨0, "000-0001", "good", true⟩ ⟨2, 2⟩
     (by decide) (by decide) (by decide) (by decide) (by decide)⟩

/-! ### More association-list lemmas -/

theorem mem_updateA {α : Type} {l : List (Nat × α)} {k : Nat} {v : α} {p : Nat × α}
    (h : p ∈ updateA l k v) : (p = (k, v) ∧ k ∈ keysA l) ∨ (p ∈ l ∧ p.1 ≠ k) := by
  unfold updateA at h
  rcases List.mem_map.1 h with ⟨q, hq, rfl⟩
  by_cases hqk : q.1 = k
  · exact Or.inl ⟨by simp [hqk], by exact hqk ▸ List.mem_map.2 ⟨q, hq, rfl⟩⟩
  · simp only [if_neg hqk]
    exact Or.inr ⟨hq, hqk⟩

theorem updateA_not_mem {α : Type} {l : List (Nat × α)} {k : Nat} (v : α)
    (h : k ∉ keysA l) : updateA l k v = l := by
  induction l with
  | nil => rfl
  | cons p rest ih =>
    have hk : p.1 ≠ k := fun he => h (he ▸ List.mem_cons_self _ _)
    have hr : k ∉ keysA rest := fun hm => h (List.mem_cons_of_mem _ hm)
    show (if p.1 = k then (p.1, v) else p) :: updateA rest k v = p :: rest
    rw [if_neg hk, ih hr]

theorem keysA_mem_bound {α : Type} {l : List (Nat × α)} {n : Nat}
    (hb : ∀ p ∈ l, p.1 < n) {k : Nat} (h : k ∈ keysA l) : k < n := by
  rcases List.mem_map.1 h with ⟨q, hq, rfl⟩
  exact hb q hq

theorem keysA_append {α : Type} (l r : List (Nat × α)) :
    keysA (l ++ r) = keysA l ++ keysA r := List.map_append _ _ _

/-! ### Shape lemmas for the save hooks -/

theorem bookInstanceSave_new_shape {inst : BookInstance} {s s2 : Store}
    (h : bookInstanceSave none inst s = .ok s2) :
    ∃ iv, generatedInv inst s = some iv ∧
      s2 = { s with insts := s.insts ++ [(s.nextInstId, { inst with inventory_number := iv })], nextInstId := s.nextInstId + 1 } := by
  unfold bookInstanceSave at h
  cases hg : generatedInv inst s with
  | none => simp [hg] at h
  | some iv =>
    rw [hg] at h
    cases h
    exact ⟨iv, rfl, rfl⟩

theorem bookInstanceSave_upd_shape {iid : Nat} {inst : BookInstance} {s s2 : Store}
    (h : bookInstanceSave (some iid) inst s = .ok s2) :
    ∃ iv, generatedInv inst s = some iv ∧
      s2 = { s with insts := updateA s.insts iid { inst with inventory_number := iv } } := by
  unfold bookInstanceSave at h
  cases hg : generatedInv inst s with
  | none => simp [hg] at h
  | some iv =>
    rw [hg] at h
    cases h
    exact ⟨iv, rfl, rfl⟩

theorem createBorrowing_ok_shape {iid uid : Nat} {bd dd : Int} {s s2 : Store}
    (h : createBorrowing iid uid bd dd s = .ok s2) :
    ∃ i bk i2, lookupA s.insts iid = some i ∧ i.is_available = true ∧
      lookupA s.books i.bookId = some bk ∧
      i2.is_available = false ∧ i2.bookId = i.bookId ∧
      (i.inventory_number ≠ "" → i2 = { i with is_available := false }) ∧
      s2.books = updateA s.books i.bookId (bookSaveFields { bk with available_copies := bk.available_copies - 1 }) ∧
      s2.insts = updateA s.insts iid i2 ∧
      s2.borrows = s.borrows ++ [(s.nextPk, ⟨iid, uid, bd, dd, none, false, 0⟩)] ∧
      s2.users = s.users ∧ s2.nextInstId = s.nextInstId ∧ s2.nextBookId = s.nextBookId ∧
      s2.nextPk = s.nextPk + 1 := by
  unfold createBorrowing borrowingSave at h
  cases hli : lookupA s.insts iid with
  | none => simp [hli] at h
  | some i =>
    simp only [hli] at h
    cases hav : i.is_available with
    | false => simp [hav] at h
    | true =>
      simp only [hav, if_true] at h
      cases hbk : lookupA s.books i.bookId with
      | none => simp [hbk] at h
      | some bk =>
        simp only [hbk] at h
        cases hbs : bookInstanceSave (some iid) { i with is_available := false } { s with books := updateA s.books i.bookId (bookSaveFields { bk with available_copies := bk.available_copies - 1 }) } with
        | error e => rw [hbs] at h; cases h
        | ok s3 =>
          rw [hbs] at h
          cases h
          rcases bookInstanceSave_upd_shape hbs with ⟨iv, hg, hs3⟩
          refine ⟨i, bk, { i with is_available := false, inventory_number := iv }, rfl, hav, hbk, rfl, rfl, ?_, ?_, ?_, ?_, ?_, ?_, ?_, ?_⟩
          · intro hne
            have : generatedInv { i with is_available := false } { s with books := updateA s.books i.bookId (bookSaveFields { bk with available_copies := bk.available_copies - 1 }) } = some i.inventory_number := by
              simp [generatedInv, hne]
            rw [this] at hg
            cases hg
            rfl
          · rw [hs3]
          · rw [hs3]
          · rw [hs3]
          · rw [hs3]
          · rw [hs3]
          · rw [hs3]
          · rw [hs3]

theorem markReturned_ok_shape {pk : Nat} {now : Int} {s s2 : Store}
    (h : markReturned pk now s = .ok s2) :
    (∃ br, lookupA s.borrows pk = some br ∧ br.is_returned = true ∧ s2 = s) ∨
    (∃ br i bk i2, lookupA s.borrows pk = some br ∧ br.is_returned = false ∧
      lookupA s.insts br.instId = some i ∧ lookupA s.books i.bookId = some bk ∧
      i2.is_available = true ∧ i2.bookId = i.bookId ∧
      (i.inventory_number ≠ "" → i2 = { i with is_available := true }) ∧
      s2.books = updateA s.books i.bookId (bookSaveFields { bk with available_copies := bk.available_copies + 1 }) ∧
      s2.insts = updateA s.insts br.instId i2 ∧
      s2.borrows = updateA s.borrows pk { br with is_returned := true, return_date := some now } ∧
      s2.users = s.users ∧ s2.nextInstId = s.nextInstId ∧ s2.nextBookId = s.nextBookId ∧
      s2.nextPk = s.nextPk) := by
  unfold markReturned at h
  cases hbr : lookupA s.borrows pk with
  | none => simp [hbr] at h
  | some br =>
    simp only [hbr] at h
    cases hret : br.is_returned with
    | true =>
      simp only [hret, if_true] at h
      cases h
      exact Or.inl ⟨br, rfl, hret, rfl⟩
    | false =>
      simp only [hret, Bool.false_eq_true, if_false] at h
      cases hi : lookupA s.insts br.instId with
      | none => simp [hi] at h
      | some i =>
        simp only [hi] at h
        cases hbk : lookupA s.books i.bookId with
        | none => simp [hbk] at h
        | some bk =>
          simp only [hbk] at h
          cases hbs : bookInstanceSave (some br.instId) { i with is_available := true } { s with books := updateA s.books i.bookId (bookSaveFields { bk with available_copies := bk.available_copies + 1 }) } with
          | error e => rw [hbs] at h; cases h
          | ok s3 =>
            rw [hbs] at h
            unfold borrowingSave at h
            cases h
            rcases bookInstanceSave_upd_shape hbs with ⟨iv, hg, hs3⟩
            refine Or.inr ⟨br, i, bk, { i with is_available := true, inventory_number := iv }, rfl, hret, hi, hbk, rfl, rfl, ?_, ?_, ?_, ?_, ?_, ?_, ?_, ?_⟩
            · intro hne
              have : generatedInv { i with is_available := true } { s with books := updateA s.books i.bookId (bookSaveFields { bk with available_copies := bk.available_copies + 1 }) } = some i.inventory_number := by
                simp [generatedInv, hne]
              rw [this] at hg
              cases hg
              rfl
            · rw [hs3]
            · rw [hs3]
            · rw [hs3]
            · rw [hs3]
            · rw [hs3]
            · rw [hs3]
            · rw [hs3]

/-! ### Claim C4: `mark_as_returned` -/

theorem bookInstanceSave_frame {pk : Option Nat} {inst : BookInstance} {s s2 : Store}
    (h : bookInstanceSave pk inst s = .ok s2) :
    s2.books = s.books ∧ s2.borrows = s.borrows ∧ s2.users = s.users ∧
    s2.nextPk = s.nextPk ∧ s2.nextBookId = s.nextBookId := by
  unfold bookInstanceSave at h
  cases hg : generatedInv inst s with
  | none => simp [hg] at h
  | some iv =>
    rw [hg] at h
    cases pk with
    | some iid => cases h; exact ⟨rfl, rfl, rfl, rfl, rfl⟩
    | none => cases h; exact ⟨rfl, rfl, rfl, rfl, rfl⟩

/-- C4 (amended): `mark_as_returned` is idempotent — the second call is a
no-op in every case — and a call on a not-yet-returned Borrowing stamps
the record, flips the instance back to available and increments the
book's `available_copies` by exactly 1 provided `available_copies <
total_copies` beforehand; when `available_copies` already equals
`total_copies`, `Book.save` clamps and the increment is absorbed (see the
counterexample). -/
theorem c4_markReturned_idempotent_and_effects (s : Store) (pk : Nat) (now1 now2 : Int) :
    applyOp (applyOp s (.markRet pk now1)) (.markRet pk now2) = applyOp s (.markRet pk now1) ∧
    (∀ br i bk, lookupA s.borrows pk = some br → br.is_returned = false →
      lookupA s.insts br.instId = some i → i.inventory_number ≠ "" →
      lookupA s.books i.bookId = some bk →
      bk.available_copies < bk.total_copies →
      ∃ s2, markReturned pk now1 s = .ok s2 ∧
        lookupA s2.borrows pk = some { br with is_returned := true, return_date := some now1 } ∧
        lookupA s2.insts br.instId = some { i with is_available := true } ∧
        lookupA s2.books i.bookId = some { bk with available_copies := bk.available_copies + 1 }) := by
  constructor
  · cases hbr : lookupA s.borrows pk with
    | none => simp [applyOp, markReturned, hbr]
    | some br =>
      by_cases hret : br.is_returned
      · simp [applyOp, markReturned, hbr, hret]
      · cases hi : lookupA s.insts br.instId with
        | none => simp [applyOp, markReturned, hbr, hret, hi]
        | some i =>
          cases hbk : lookupA s.books i.bookId with
          | none => simp [applyOp, markReturned, hbr, hret, hi, hbk]
          | some bk =>
            cases hsave : bookInstanceSave (some br.instId) { i with is_available := true } { s with books := updateA s.books i.bookId (bookSaveFields { bk with available_copies := bk.available_copies + 1 }) } with
            | error e =>
              simp [applyOp, markReturned, hbr, hret, hi, hbk, hsave]
            | ok s2 =>
              have hfr := bookInstanceSave_frame hsave
              have hin : applyOp s (.markRet pk now1) = { s2 with borrows := updateA s2.borrows pk { br with is_returned := true, return_date := some now1 } } := by
                simp [applyOp, markReturned, hbr, hret, hi, hbk, hsave, borrowingSave]
              rw [hin]
              have hbr2 : lookupA (updateA s2.borrows pk { br with is_returned := true, return_date := some now1 }) pk = some { br with is_returned := true, return_date := some now1 } := by
                rw [lookupA_updateA_self]
                have hb2 : s2.borrows = s.borrows := hfr.2.1
                rw [hb2, hbr]
                rfl
              simp [applyOp, markReturned, hbr2]
  · intro br i bk hbr hret hi hinv hbk hcl
    have hnc : ¬ (bk.available_copies + 1 > bk.total_copies) := by omega
    have hrun : markReturned pk now1 s = .ok
        { s with books := updateA s.books i.bookId ⟨bk.total_copies, bk.available_copies + 1⟩,
                 insts := updateA s.insts br.instId { i with is_available := true },
                 borrows := updateA s.borrows pk
                   { br with is_returned := true, return_date := some now1 } } := by
      simp [markReturned, hbr, hret, hi, hbk, bookSaveFields, hnc, bookInstanceSave,
        generatedInv, hinv, borrowingSave]
    refine ⟨_, hrun, ?_, ?_, ?_⟩
    · simp [lookupA_updateA_self, hbr]
    · simp [lookupA_updateA_self, hi]
    · simp [lookupA_updateA_self, hbk]

/-- Witness for C4: returning the open borrowing of `demoBorrowedStore`
restores the instance and bumps the book from 0 back to 1 copy. -/
theorem c4_markReturned_idempotent_and_effects_witness :
    (applyOp (applyOp demoBorrowedStore (.markRet 0 5)) (.markRet 0 6) =
      applyOp demoBorrowedStore (.markRet 0 5)) ∧
    (lookupA demoBorrowedStore.borrows 0 = some ⟨0, 0, 0, 7, none, false, 0⟩ ∧
     lookupA demoBorrowedStore.insts 0 = some ⟨0, "000-0001", "good", false⟩ ∧
     lookupA demoBorrowedStore.books 0 = some ⟨1, 0⟩) ∧
    ∃ s2, markReturned 0 5 demoBorrowedStore = .ok s2 ∧
      lookupA s2.borrows 0 = some ⟨0, 0, 0, 7, some 5, true, 0⟩ ∧
      lookupA s2.insts 0 = some ⟨0, "000-0001", "good", true⟩ ∧
      lookupA s2.books 0 = some ⟨1, 1⟩ :=
  have h := c4_markReturned_idempotent_and_effects demoBorrowedStore 0 5 6
  ⟨h.1, ⟨by decide, by decide, by decide⟩,
   h.2 ⟨0, 0, 0, 7, none, false, 0⟩ ⟨0, "000-0001", "good", false⟩ ⟨1, 0⟩
     (by decide) (by decide) (by decide) (by decide) (by decide) (by decide)⟩

/-- Counterexample to C4 as stated: after shrinking `total_copies` to 1
while a borrowing is open, the book stands at `available_copies =
total_copies = 1`; `mark_as_returned` then leaves `available_copies` at 1
(the +1 is clamped away by `Book.save`), so it does not increment by
exactly 1. -/
theorem c4_markReturned_increment_cex :
    (lookupA (runOps c4CexOps initStore).borrows 0).map (fun b => b.is_returned) = some false ∧
    lookupA (runOps c4CexOps initStore).books 0 = some ⟨1, 1⟩ ∧
    lookupA (runOps (c4CexOps ++ [.markRet 0 5]) initStore).books 0 = some ⟨1, 1⟩ ∧
    lookupA (runOps (c4CexOps ++ [.markRet 0 5]) initStore).books 0 ≠ some ⟨1, 1 + 1⟩ := by
  refine ⟨by decide, by decide, by decide, by decide⟩

/-! ### Claim C3: copy-count bounds over reachable states -/

theorem bookSaveFields_le (b : Book) :
    (bookSaveFields b).available_copies ≤ (bookSaveFields b).total_copies := by
  unfold bookSaveFields
  split
  · exact le_refl _
  · next hng => exact le_of_not_lt hng

theorem booksClamped_applyOp {s : Store} (o : Op) (hs : BooksClamped s) :
    BooksClamped (applyOp s o) := by
  cases o with
  | createBook t a =>
    intro p hp
    simp only [applyOp] at hp
    rcases List.mem_append.1 hp with hold | hnew
    · exact hs p hold
    · rcases List.mem_singleton.1 hnew with rfl
      exact bookSaveFields_le _
  | bookSave bid t a =>
    intro p hp
    simp only [applyOp] at hp
    cases hlb : lookupA s.books bid with
    | none => rw [hlb] at hp; exact hs p hp
    | some b0 =>
      rw [hlb] at hp
      rcases mem_updateA hp with ⟨rfl, _⟩ | ⟨hold, _⟩
      · exact bookSaveFields_le _
      · exact hs p hold
  | createInstance bid cond =>
    intro p hp
    simp only [applyOp] at hp
    cases hbs : bookInstanceSave none ⟨bid, "", cond, true⟩ s with
    | error e => rw [hbs] at hp; exact hs p hp
    | ok s2 =>
      rw [hbs] at hp
      rcases bookInstanceSave_new_shape hbs with ⟨iv, _, rfl⟩
      exact hs p hp
  | createUser => exact hs
  | createBorrow iid uid bd dd =>
    intro p hp
    simp only [applyOp] at hp
    cases hcb : createBorrowing iid uid bd dd s with
    | error e => rw [hcb] at hp; exact hs p hp
    | ok s2 =>
      rw [hcb] at hp
      rcases createBorrowing_ok_shape hcb with ⟨i, bk, i2, _, _, _, _, _, _, hbooks, _⟩
      rw [hbooks] at hp
      rcases mem_updateA hp with ⟨rfl, _⟩ | ⟨hold, _⟩
      · exact bookSaveFields_le _
      · exact hs p hold
  | markRet pk now =>
    intro p hp
    simp only [applyOp] at hp
    cases hmk : markReturned pk now s with
    | error e => rw [hmk] at hp; exact hs p hp
    | ok s2 =>
      rw [hmk] at hp
      rcases markReturned_ok_shape hmk with ⟨br, _, _, rfl⟩ | ⟨br, i, bk, i2, _, _, _, _, _, _, _, hbooks, _⟩
      · exact hs p hp
      · rw [hbooks] at hp
        rcases mem_updateA hp with ⟨rfl, _⟩ | ⟨hold, _⟩
        · exact bookSaveFields_le _
        · exact hs p hold

theorem booksClamped_runOps (l : List Op) {s : Store} (hs : BooksClamped s) :
    BooksClamped (runOps l s) := by
  induction l generalizing s with
  | nil => exact hs
  | cons o rest ih => exact ih (booksClamped_applyOp o hs)

/-- C3 (amended): at every state reachable by the documented operations
(creation, `Book.save` with any copy counts, `CreateBorrowing`,
`MarkReturned`), `available_copies ≤ total_copies` holds — every write
goes through `Book.save`, which clamps an excessive `available_copies`
down to `total_copies`.  The lower bound `0 ≤ available_copies` of the
original claim is NOT maintained by the code (see the counterexample:
a borrow after a counter-shrinking save drives it to -1). -/
theorem c3_available_le_total (l : List Op) (bid : Nat) (b : Book)
    (h : lookupA (runOps l initStore).books bid = some b) :
    b.available_copies ≤ b.total_copies := by
  have hc : BooksClamped (runOps l initStore) :=
    booksClamped_runOps l (by intro p hp; cases hp)
  exact hc _ (lookupA_mem h)

/-- Witness for C3: a book created with `available_copies = 5 >
total_copies = 3` is stored clamped to 3, satisfying the bound. -/
theorem c3_available_le_total_witness :
    lookupA (runOps [Op.createBook 3 5] initStore).books 0 = some ⟨3, 3⟩ ∧
    (Book.mk 3 3).available_copies ≤ (Book.mk 3 3).total_copies :=
  ⟨by decide, c3_available_le_total [Op.createBook 3 5] 0 ⟨3, 3⟩ (by decide)⟩

/-- Counterexample to C3 as stated: after `c3CexOps` (a reachable trace:
save the book with `available_copies = 0` while its only instance is
still available, then borrow that instance) the book row holds
`available_copies = -1`, violating `0 ≤ available_copies`. -/
theorem c3_negative_available_cex :
    lookupA (runOps c3CexOps initStore).books 0 = some ⟨1, -1⟩ ∧
    ¬ ((0 : Int) ≤ (Book.mk 1 (-1)).available_copies) :=
  ⟨by decide, by decide⟩

/-! ### Claim C5: availability flag vs open borrowings -/

theorem nodupKeys_cons {α : Type} {p : Nat × α} {rest : List (Nat × α)}
    (h : NodupKeys (p :: rest)) : p.1 ∉ keysA rest ∧ NodupKeys rest := by
  rw [NodupKeys, keysA, List.map_cons, List.nodup_cons] at h
  exact h

theorem updateA_cons {α : Type} (p : Nat × α) (l : List (Nat × α)) (k : Nat) (v : α) :
    updateA (p :: l) k v = (if p.1 = k then (p.1, v) else p) :: updateA l k v := rfl

theorem openFor_cons (iid : Nat) (q : Nat × Borrowing) (l : List (Nat × Borrowing)) :
    openFor iid (q :: l) =
      if (q.2.instId == iid && !q.2.is_returned) = true then q :: openFor iid l
      else openFor iid l := by
  simp [openFor, List.filter_cons]

theorem openFor_append (iid : Nat) (l r : List (Nat × Borrowing)) :
    openFor iid (l ++ r) = openFor iid l ++ openFor iid r := by
  simp [openFor]

theorem mem_openFor {iid : Nat} {l : List (Nat × Borrowing)} {q : Nat × Borrowing} :
    q ∈ openFor iid l ↔ q ∈ l ∧ q.2.instId = iid ∧ q.2.is_returned = false := by
  simp [openFor, List.mem_filter, Bool.and_eq_true, beq_iff_eq, Bool.not_eq_true']

theorem openFor_nil_of_not_ref {iid : Nat} {l : List (Nat × Borrowing)}
    (h : ∀ q ∈ l, q.2.instId ≠ iid) : openFor iid l = [] := by
  induction l with
  | nil => rfl
  | cons q rest ih =>
    have hq : (q.2.instId == iid) = false := by
      have := h q (List.mem_cons_self _ _)
      simp [this]
    rw [openFor_cons, if_neg (by simp [hq])]
    exact ih fun r hr => h r (List.mem_cons_of_mem _ hr)

theorem openFor_updateA_count {l : List (Nat × Borrowing)} {pk : Nat} {br : Borrowing}
    (hnd : NodupKeys l) (hlk : lookupA l pk = some br) (v : Borrowing) (iid : Nat) :
    (openFor iid (updateA l pk v)).length +
      (if (br.instId == iid && !br.is_returned) = true then 1 else 0) =
    (openFor iid l).length +
      (if (v.instId == iid && !v.is_returned) = true then 1 else 0) := by
  induction l with
  | nil => simp [lookupA] at hlk
  | cons p rest ih =>
    obtain ⟨hpn, hndr⟩ := nodupKeys_cons hnd
    by_cases hp : p.1 = pk
    · have hbr : p.2 = br := by simpa [lookupA, hp] using hlk
      subst hbr
      have hur : updateA rest pk v = rest := updateA_not_mem v (hp ▸ hpn)
      rw [updateA_cons, if_pos hp, hur, openFor_cons, openFor_cons]
      by_cases h1 : (v.instId == iid && !v.is_returned) = true <;>
        by_cases h2 : (p.2.instId == iid && !p.2.is_returned) = true
      · rw [if_pos h1, if_pos h2, if_pos h2, if_pos h1]
        simp only [List.length_cons]
      · rw [if_pos h1, if_neg h2, if_neg h2, if_pos h1]
        simp only [List.length_cons]
      · rw [if_neg h1, if_pos h2, if_pos h2, if_neg h1]
        simp only [List.length_cons]
      · rw [if_neg h1, if_neg h2, if_neg h2, if_neg h1]
    · have hlk2 : lookupA rest pk = some br := by simpa [lookupA, hp] using hlk
      have key := ih hndr hlk2
      rw [updateA_cons, if_neg hp, openFor_cons, openFor_cons]
      by_cases h2 : (p.2.instId == iid && !p.2.is_returned) = true
      · rw [if_pos h2, if_pos h2]
        simp only [List.length_cons]
        omega
      · rw [if_neg h2, if_neg h2]
        exact key

theorem availInv_applyOp {s : Store} (o : Op) (hs : AvailInv s) : AvailInv (applyOp s o) := by
  obtain ⟨hkb, href, hpkb, hnd, hcnt⟩ := hs
  cases o with
  | createBook t a => exact ⟨hkb, href, hpkb, hnd, hcnt⟩
  | bookSave bid t a =>
    cases hlb : lookupA s.books bid with
    | none => simpa [applyOp, hlb] using ⟨hkb, href, hpkb, hnd, hcnt⟩
    | some b0 => simpa [applyOp, hlb] using ⟨hkb, href, hpkb, hnd, hcnt⟩
  | createUser => exact ⟨hkb, href, hpkb, hnd, hcnt⟩
  | createInstance bid cond =>
    cases hbs : bookInstanceSave none ⟨bid, "", cond, true⟩ s with
    | error e => simpa [applyOp, hbs] using ⟨hkb, href, hpkb, hnd, hcnt⟩
    | ok s2 =>
      rcases bookInstanceSave_new_shape hbs with ⟨iv, _, rfl⟩
      have hres : applyOp s (.createInstance bid cond) = { s with insts := s.insts ++ [(s.nextInstId, { bookId := bid, inventory_number := iv, condition := cond, is_available := true })], nextInstId := s.nextInstId + 1 } := by
        simp [applyOp, hbs]
      rw [hres]
      refine ⟨?_, ?_, hpkb, hnd, ?_⟩
      · intro p hp
        rcases List.mem_append.1 hp with hold | hnew
        · exact Nat.lt_succ_of_lt (hkb p hold)
        · rcases List.mem_singleton.1 hnew with rfl
          exact Nat.lt_succ_self _
      · intro q hq
        obtain ⟨w, hw⟩ := Option.isSome_iff_exists.1 (href q hq)
        exact Option.isSome_iff_exists.2 ⟨w, lookupA_append_left _ hw⟩
      · intro p hp
        rcases List.mem_append.1 hp with hold | hnew
        · exact hcnt p hold
        · rcases List.mem_singleton.1 hnew with rfl
          have hopen : openFor s.nextInstId s.borrows = [] := by
            apply openFor_nil_of_not_ref
            intro q hq
            have hk : q.2.instId ∈ keysA s.insts := (lookupA_isSome_iff _ _).1 (href q hq)
            exact Nat.ne_of_lt (keysA_mem_bound hkb hk)
          simp [hopen]
  | createBorrow iid uid bd dd =>
    cases hcb : createBorrowing iid uid bd dd s with
    | error e => simpa [applyOp, hcb] using ⟨hkb, href, hpkb, hnd, hcnt⟩
    | ok s2 =>
      have hres : applyOp s (.createBorrow iid uid bd dd) = s2 := by simp [applyOp, hcb]
      rw [hres]
      rcases createBorrowing_ok_shape hcb with
        ⟨i, bk, i2, hli, hav, hbk2, hi2av, hi2b, _, hbooks, hinsts, hbors, husers, hnii, hnbi, hnpk⟩
      have hkeq : keysA s2.insts = keysA s.insts := by rw [hinsts, keysA_updateA]
      refine ⟨?_, ?_, ?_, ?_, ?_⟩
      · intro p hp
        rw [hinsts] at hp
        rw [hnii]
        rcases mem_updateA hp with ⟨rfl, hkm⟩ | ⟨hold, _⟩
        · exact keysA_mem_bound hkb hkm
        · exact hkb p hold
      · intro q hq
        rw [hbors] at hq
        rw [lookupA_isSome_iff, hkeq]
        rcases List.mem_append.1 hq with hold | hnew
        · exact (lookupA_isSome_iff _ _).1 (href q hold)
        · rcases List.mem_singleton.1 hnew with rfl
          exact (lookupA_isSome_iff _ _).1 (Option.isSome_iff_exists.2 ⟨i, hli⟩)
      · intro q hq
        rw [hbors] at hq
        rw [hnpk]
        rcases List.mem_append.1 hq with hold | hnew
        · exact Nat.lt_succ_of_lt (hpkb q hold)
        · rcases List.mem_singleton.1 hnew with rfl
          exact Nat.lt_succ_self _
      · rw [hbors, NodupKeys, keysA_append]
        apply List.Nodup.append hnd (List.nodup_singleton _)
        intro a ha hb
        rcases List.mem_singleton.1 hb with rfl
        exact absurd (keysA_mem_bound hpkb ha) (lt_irrefl _)
      · intro p hp
        rw [hinsts] at hp
        rw [hbors]
        rcases mem_updateA hp with ⟨rfl, _⟩ | ⟨hold, hne⟩
        · show (openFor iid (s.borrows ++ [(s.nextPk, (⟨iid, uid, bd, dd, none, false, 0⟩ : Borrowing))])).length = if i2.is_available = true then 0 else 1
          have hc0 : (openFor iid s.borrows).length = 0 := by
            have hx := hcnt _ (lookupA_mem hli)
            rw [hav] at hx
            simpa using hx
          have hc1 : (openFor iid [(s.nextPk, (⟨iid, uid, bd, dd, none, false, 0⟩ : Borrowing))]).length = 1 := by
            simp [openFor]
          rw [openFor_append, List.length_append, hc0, hc1, hi2av]
          decide
        · rw [openFor_append]
          have hone : openFor p.1 [(s.nextPk, (⟨iid, uid, bd, dd, none, false, 0⟩ : Borrowing))] = [] := by
            apply openFor_nil_of_not_ref
            intro q hq
            rcases List.mem_singleton.1 hq with rfl
            exact fun he => hne he.symm
          rw [hone, List.append_nil]
          exact hcnt p hold
  | markRet pk now =>
    cases hmk : markReturned pk now s with
    | error e => simpa [applyOp, hmk] using ⟨hkb, href, hpkb, hnd, hcnt⟩
    | ok s2 =>
      have hres : applyOp s (.markRet pk now) = s2 := by simp [applyOp, hmk]
      rw [hres]
      rcases markReturned_ok_shape hmk with ⟨br, _, _, rfl⟩ |
        ⟨br, i, bk, i2, hbr, hret, hi, hbk2, hi2av, hi2b, _, hbooks, hinsts, hbors, husers, hnii, hnbi, hnpk⟩
      · exact ⟨hkb, href, hpkb, hnd, hcnt⟩
      · have hkeq : keysA s2.insts = keysA s.insts := by rw [hinsts, keysA_updateA]
        have hbkeq : keysA s2.borrows = keysA s.borrows := by rw [hbors, keysA_updateA]
        refine ⟨?_, ?_, ?_, ?_, ?_⟩
        · intro p hp
          rw [hinsts] at hp
          rw [hnii]
          rcases mem_updateA hp with ⟨rfl, hkm⟩ | ⟨hold, _⟩
          · exact keysA_mem_bound hkb hkm
          · exact hkb p hold
        · intro q hq
          rw [hbors] at hq
          rw [lookupA_isSome_iff, hkeq]
          rcases mem_updateA hq with ⟨rfl, _⟩ | ⟨hold, _⟩
          · exact (lookupA_isSome_iff _ _).1 (Option.isSome_iff_exists.2 ⟨i, hi⟩)
          · exact (lookupA_isSome_iff _ _).1 (href q hold)
        · intro q hq
          rw [hbors] at hq
          rw [hnpk]
          rcases mem_updateA hq with ⟨rfl, _⟩ | ⟨hold, _⟩
          · exact hpkb (pk, br) (lookupA_mem hbr)
          · exact hpkb q hold
        · rw [NodupKeys, hbkeq]
          exact hnd
        · intro p hp
          rw [hinsts] at hp
          rw [hbors]
          have hkey := openFor_updateA_count hnd hbr
            { br with is_returned := true, return_date := some now }
          rcases mem_updateA hp with ⟨rfl, _⟩ | ⟨hold, hne⟩
          · show (openFor br.instId (updateA s.borrows pk { br with is_returned := true, return_date := some now })).length = if i2.is_available = true then 0 else 1
            have hbrm : (pk, br) ∈ openFor br.instId s.borrows :=
              mem_openFor.2 ⟨lookupA_mem hbr, rfl, hret⟩
            have hpos : 0 < (openFor br.instId s.borrows).length :=
              List.length_pos.2 (List.ne_nil_of_mem hbrm)
            have hiav : i.is_available = false := by
              by_contra hcon
              have hx := hcnt _ (lookupA_mem hi)
              have htr : i.is_available = true := by
                revert hcon
                cases i.is_available <;> simp
              rw [htr] at hx
              simp [List.length_eq_zero] at hx
              exact List.ne_nil_of_mem hbrm hx
            have hco := hcnt _ (lookupA_mem hi)
            rw [hiav] at hco
            simp at hco
            have hk2 := hkey br.instId
            simp [hret] at hk2
            have hz : (openFor br.instId (updateA s.borrows pk { br with is_returned := true, return_date := some now })).length = 0 := by
              omega
            rw [hz, hi2av]
            decide
          · have hk2 := hkey p.1
            have hne2 : (br.instId == p.1) = false := by
              simp only [beq_eq_false_iff_ne, ne_eq]
              exact fun he => hne he.symm
            simp [hne2] at hk2
            rw [hk2]
            exact hcnt p hold

theorem availInv_runOps (l : List Op) {s : Store} (hs : AvailInv s) :
    AvailInv (runOps l s) := by
  induction l generalizing s with
  | nil => exact hs
  | cons o rest ih => exact ih (availInv_applyOp o hs)

theorem availInv_init : AvailInv initStore := by
  refine ⟨?_, ?_, ?_, ?_, ?_⟩ <;> simp [initStore, NodupKeys, keysA]

/-- C5: at every reachable state, an instance is unavailable exactly when
some Borrowing on it is still open.  (Instances are created available,
`Borrowing.save` flips the flag as it inserts the open record, and
`mark_as_returned` flips it back as it closes it.) -/
theorem c5_unavailable_iff_open (l : List Op) (iid : Nat) :
    (∃ i, lookupA (runOps l initStore).insts iid = some i ∧ i.is_available = false) ↔
    (∃ q ∈ (runOps l initStore).borrows, q.2.instId = iid ∧ q.2.is_returned = false) := by
  obtain ⟨hkb, href, hpkb, hnd, hcnt⟩ := availInv_runOps l availInv_init
  constructor
  · rintro ⟨i, hl, hav⟩
    have hco := hcnt _ (lookupA_mem hl)
    rw [hav] at hco
    simp at hco
    have hne : openFor iid (runOps l initStore).borrows ≠ [] := by
      intro hnil
      rw [hnil] at hco
      simp at hco
    obtain ⟨q, hq⟩ := List.exists_mem_of_ne_nil _ hne
    obtain ⟨hqm, hqi, hqr⟩ := mem_openFor.1 hq
    exact ⟨q, hqm, hqi, hqr⟩
  · rintro ⟨q, hq, hinst, hret⟩
    obtain ⟨i, hl⟩ := Option.isSome_iff_exists.1 (href q hq)
    have hqo : q ∈ openFor q.2.instId (runOps l initStore).borrows :=
      mem_openFor.2 ⟨hq, rfl, hret⟩
    have hpos : 0 < (openFor q.2.instId (runOps l initStore).borrows).length :=
      List.length_pos.2 (List.ne_nil_of_mem hqo)
    have hiav : i.is_available = false := by
      by_contra hcon
      have htr : i.is_available = true := by
        revert hcon
        cases i.is_available <;> simp
      have hco := hcnt _ (lookupA_mem hl)
      rw [htr] at hco
      simp [List.length_eq_zero] at hco
      exact List.ne_nil_of_mem hqo hco
    exact ⟨i, hinst ▸ hl, hiav⟩

/-- C9: saving a Borrowing that already has a primary key is a plain
row update — the instance table and the book table are untouched, so the
availability side effects run only for newly created records. -/
theorem c9_borrowingSave_existing_frame (pk : Nat) (br : Borrowing) (s : Store) :
    ∃ s2, borrowingSave (some pk) br s = .ok s2 ∧
      s2.insts = s.insts ∧ s2.books = s.books ∧
      s2.borrows = updateA s.borrows pk br :=
  ⟨_, rfl, rfl, rfl, rfl⟩

/-! ### Decimal formatting lemmas (for C7) -/

theorem digitChar_isDigit (n : Nat) : (digitChar n).isDigit = true := by
  rcases n with _|_|_|_|_|_|_|_|_|n <;> rfl

theorem digitChar_toNat (n : Nat) (h : n < 10) : (digitChar n).toNat - 48 = n := by
  interval_cases n <;> rfl

theorem natDecimalGo_fuel : ∀ f1 f2 n, n ≤ f1 → n ≤ f2 →
    natDecimalGo f1 n = natDecimalGo f2 n := by
  intro f1
  induction f1 with
  | zero =>
    intro f2 n h1 h2
    have hn : n = 0 := Nat.le_zero.1 h1
    subst hn
    cases f2 with
    | zero => rfl
    | succ f => simp [natDecimalGo]
  | succ f1 ih =>
    intro f2 n h1 h2
    cases f2 with
    | zero =>
      have hn : n = 0 := Nat.le_zero.1 h2
      subst hn
      simp [natDecimalGo]
    | succ f2 =>
      by_cases h : n < 10
      · simp [natDecimalGo, h]
      · have hd : n / 10 < n := Nat.div_lt_self (by omega) (by omega)
        simp only [natDecimalGo, if_neg h]
        rw [ih f2 (n / 10) (by omega) (by omega)]

theorem natDecimal_eq (n : Nat) :
    natDecimal n =
      if n < 10 then [digitChar n]
      else natDecimal (n / 10) ++ [digitChar (n % 10)] := by
  by_cases h : n < 10
  · rw [if_pos h]
    cases n with
    | zero => rfl
    | succ m => simp [natDecimal, natDecimalGo, h]
  · rw [if_neg h]
    cases n with
    | zero => omega
    | succ m =>
      have hd : (m + 1) / 10 < m + 1 := Nat.div_lt_self (by omega) (by omega)
      show natDecimalGo (m + 1) (m + 1) = _
      simp only [natDecimalGo, if_neg h]
      rw [natDecimalGo_fuel m ((m + 1) / 10) ((m + 1) / 10) (by omega) le_rfl]
      rfl

theorem natDecimal_ne_nil (n : Nat) : natDecimal n ≠ [] := by
  rw [natDecimal_eq]
  by_cases h : n < 10
  · simp [h]
  · simp [h]

theorem natDecimal_all_isDigit (n : Nat) : ∀ c ∈ natDecimal n, c.isDigit = true := by
  induction n using Nat.strong_induction_on with
  | _ n ih =>
    rw [natDecimal_eq]
    by_cases h : n < 10
    · simp only [if_pos h]
      intro c hc
      rcases List.mem_singleton.1 hc with rfl
      exact digitChar_isDigit n
    · simp only [if_neg h]
      intro c hc
      rcases List.mem_append.1 hc with hl | hr
      · exact ih (n / 10) (Nat.div_lt_self (by omega) (by omega)) c hl
      · rcases List.mem_singleton.1 hr with rfl
        exact digitChar_isDigit _

theorem decValue_natDecimal (n : Nat) : decValue (natDecimal n) = n := by
  induction n using Nat.strong_induction_on with
  | _ n ih =>
    rw [natDecimal_eq]
    by_cases h : n < 10
    · simp only [if_pos h]
      simp [decValue, digitChar_toNat n h]
    · simp only [if_neg h]
      have hlt : n / 10 < n := Nat.div_lt_self (by omega) (by omega)
      have hih := ih (n / 10) hlt
      unfold decValue at hih ⊢
      rw [List.foldl_append, hih]
      simp [digitChar_toNat (n % 10) (Nat.mod_lt _ (by omega))]
      omega

theorem decValue_replicate (z : Nat) (ds : List Char) :
    decValue (List.replicate z '0' ++ ds) = decValue ds := by
  induction z with
  | zero => simp
  | succ z ih =>
    rw [List.replicate_succ, List.cons_append]
    unfold decValue at ih ⊢
    simpa using ih

theorem decValue_padZeros (w : Nat) (ds : List Char) :
    decValue (padZeros w ds) = decValue ds := decValue_replicate _ _

theorem parseDecimal_pad (w n : Nat) :
    parseDecimal ⟨padZeros w (natDecimal n)⟩ = some n := by
  have hne : padZeros w (natDecimal n) ≠ [] := by
    unfold padZeros
    intro hnil
    exact natDecimal_ne_nil n (List.append_eq_nil.1 hnil).2
  have hall : (padZeros w (natDecimal n)).all Char.isDigit = true := by
    rw [List.all_eq_true]
    intro c hc
    rcases List.mem_append.1 hc with hl | hr
    · rcases List.eq_of_mem_replicate hl with rfl
      rfl
    · exact natDecimal_all_isDigit n c hr
  unfold parseDecimal
  split
  · show some (decValue (padZeros w (natDecimal n))) = some n
    rw [decValue_padZeros, decValue_natDecimal]
  · next hcon => exact absurd ⟨hne, hall⟩ hcon

theorem isDigit_ne_dash {c : Char} (h : c.isDigit = true) : (c != '-') = true := by
  have hne : c ≠ '-' := by
    intro he
    subst he
    simp [Char.isDigit] at h
  simpa [bne_iff_ne] using hne

theorem takeWhile_all_append {p : Char → Bool} {xs : List Char} (y : Char)
    (ys : List Char) (hx : ∀ c ∈ xs, p c = true) (hy : p y = false) :
    (xs ++ y :: ys).takeWhile p = xs := by
  induction xs with
  | nil => simp [List.takeWhile_cons, hy]
  | cons a rest ih =>
    have ha : p a = true := hx a (List.mem_cons_self _ _)
    rw [List.cons_append, List.takeWhile_cons, ha]
    simp only [if_true]
    rw [ih fun c hc => hx c (List.mem_cons_of_mem _ hc)]

theorem dropWhile_all_append {p : Char → Bool} {xs : List Char} (y : Char)
    (ys : List Char) (hx : ∀ c ∈ xs, p c = true) (hy : p y = false) :
    (xs ++ y :: ys).dropWhile p = y :: ys := by
  induction xs with
  | nil => simp [List.dropWhile_cons, hy]
  | cons a rest ih =>
    have ha : p a = true := hx a (List.mem_cons_self _ _)
    rw [List.cons_append, List.dropWhile_cons, ha]
    simp only [if_true]
    exact ih fun c hc => hx c (List.mem_cons_of_mem _ hc)

theorem pad_no_dash (w n : Nat) :
    ∀ c ∈ padZeros w (natDecimal n), (c != '-') = true := by
  intro c hc
  rcases List.mem_append.1 hc with hl | hr
  · rcases List.eq_of_mem_replicate hl with rfl
    rfl
  · exact isDigit_ne_dash (natDecimal_all_isDigit n c hr)

theorem invNum_data_reverse (b n : Nat) :
    (invNumStr b n).data.reverse =
      (padZeros 4 (natDecimal n)).reverse ++ '-' :: (padZeros 3 (natDecimal b)).reverse := by
  show (padZeros 3 (natDecimal b) ++ '-' :: padZeros 4 (natDecimal n)).reverse = _
  rw [List.reverse_append, List.reverse_cons, List.append_assoc]
  rfl

theorem afterLastDash_invNum (b n : Nat) :
    afterLastDash (invNumStr b n) = ⟨padZeros 4 (natDecimal n)⟩ := by
  unfold afterLastDash
  rw [invNum_data_reverse]
  rw [takeWhile_all_append '-' _ (fun c hc => pad_no_dash 4 n c (List.mem_reverse.1 hc)) (by rfl)]
  rw [List.reverse_reverse]

theorem beforeLastDash_invNum (b n : Nat) :
    beforeLastDash (invNumStr b n) = ⟨padZeros 3 (natDecimal b)⟩ := by
  unfold beforeLastDash
  rw [invNum_data_reverse]
  rw [dropWhile_all_append '-' _ (fun c hc => pad_no_dash 4 n c (List.mem_reverse.1 hc)) (by rfl)]
  rw [List.drop_one, List.tail_cons, List.reverse_reverse]

theorem parse_afterLastDash_invNum (b n : Nat) :
    parseDecimal (afterLastDash (invNumStr b n)) = some n := by
  rw [afterLastDash_invNum]
  exact parseDecimal_pad 4 n

theorem invNumStr_inj {b1 n1 b2 n2 : Nat} (h : invNumStr b1 n1 = invNumStr b2 n2) :
    b1 = b2 ∧ n1 = n2 := by
  constructor
  · have h3 : parseDecimal (beforeLastDash (invNumStr b1 n1)) =
        parseDecimal (beforeLastDash (invNumStr b2 n2)) := by rw [h]
    rw [beforeLastDash_invNum, beforeLastDash_invNum, parseDecimal_pad, parseDecimal_pad] at h3
    exact Option.some.inj h3
  · have h4 : parseDecimal (afterLastDash (invNumStr b1 n1)) =
        parseDecimal (afterLastDash (invNumStr b2 n2)) := by rw [h]
    rw [parse_afterLastDash_invNum, parse_afterLastDash_invNum] at h4
    exact Option.some.inj h4

theorem invNumStr_ne_empty (b n : Nat) : invNumStr b n ≠ "" := by
  intro he
  have : (invNumStr b n).data = ([] : List Char) := by rw [he]
  have h2 : padZeros 3 (natDecimal b) ++ '-' :: padZeros 4 (natDecimal n) = [] := this
  simp at h2

/-! ### Claim C7: inventory-number generation and uniqueness -/

theorem getLast?_map {α β : Type} (f : α → β) (l : List α) :
    (l.map f).getLast? = l.getLast?.map f := by
  induction l with
  | nil => rfl
  | cons a rest ih =>
    cases rest with
    | nil => rfl
    | cons b t => simpa [List.getLast?_cons_cons] using ih

theorem filterMap_updateA {γ : Type} {l : List (Nat × BookInstance)} {k : Nat}
    {i v : BookInstance} (hnd : NodupKeys l) (hlk : lookupA l k = some i)
    (q : BookInstance → Bool) (f : BookInstance → γ)
    (hq : q v = q i) (hf : f v = f i) :
    ((updateA l k v).filter fun p => q p.2).map (fun p => f p.2) =
    (l.filter fun p => q p.2).map fun p => f p.2 := by
  induction l with
  | nil => rfl
  | cons p rest ih =>
    obtain ⟨hpn, hndr⟩ := nodupKeys_cons hnd
    by_cases hp : p.1 = k
    · have hpi : p.2 = i := by simpa [lookupA, hp] using hlk
      have hur : updateA rest k v = rest := updateA_not_mem v (hp ▸ hpn)
      rw [updateA_cons, if_pos hp, hur]
      rw [List.filter_cons, List.filter_cons]
      have hqv : q v = q p.2 := hq.trans (congrArg q hpi.symm)
      have hfv : f v = f p.2 := hf.trans (congrArg f hpi.symm)
      by_cases hc : q p.2 = true
      · rw [if_pos (show q (p.1, v).2 = true from hqv.trans hc),
          if_pos hc, List.map_cons, List.map_cons]
        rw [show f (p.1, v).2 = f p.2 from hfv]
      · rw [if_neg (show ¬ q (p.1, v).2 = true from fun hcc => hc (hqv.symm.trans hcc)),
          if_neg hc]
    · have hlk2 : lookupA rest k = some i := by simpa [lookupA, hp] using hlk
      rw [updateA_cons, if_neg hp]
      rw [List.filter_cons, List.filter_cons]
      by_cases hc : q p.2 = true
      · rw [if_pos hc, if_pos hc, List.map_cons, List.map_cons, ih hndr hlk2]
      · rw [if_neg hc, if_neg hc]
        exact ih hndr hlk2

theorem map_updateA_eq {γ : Type} {l : List (Nat × BookInstance)} {k : Nat}
    {i v : BookInstance} (hnd : NodupKeys l) (hlk : lookupA l k = some i)
    (f : BookInstance → γ) (hf : f v = f i) :
    (updateA l k v).map (fun p => f p.2) = l.map fun p => f p.2 := by
  induction l with
  | nil => rfl
  | cons p rest ih =>
    obtain ⟨hpn, hndr⟩ := nodupKeys_cons hnd
    by_cases hp : p.1 = k
    · have hpi : p.2 = i := by simpa [lookupA, hp] using hlk
      have hur : updateA rest k v = rest := updateA_not_mem v (hp ▸ hpn)
      rw [updateA_cons, if_pos hp, hur, List.map_cons, List.map_cons]
      rw [show f (p.1, v).2 = f p.2 from hf.trans (congrArg f hpi.symm)]
    · have hlk2 : lookupA rest k = some i := by simpa [lookupA, hp] using hlk
      rw [updateA_cons, if_neg hp, List.map_cons, List.map_cons, ih hndr hlk2]

theorem numbering_mem_form {s : Store}
    (h3 : ∀ bid, instNumsOf bid s =
      (List.range (instNumsOf bid s).length).map fun j => invNumStr bid (j + 1))
    {p : Nat × BookInstance} (hp : p ∈ s.insts) :
    ∃ j, j < (instNumsOf p.2.bookId s).length ∧
      p.2.inventory_number = invNumStr p.2.bookId (j + 1) := by
  have hmem : p.2.inventory_number ∈ instNumsOf p.2.bookId s := by
    unfold instNumsOf
    exact List.mem_map.2 ⟨p, List.mem_filter.2 ⟨hp, by simp⟩, rfl⟩
  rw [h3] at hmem
  rcases List.mem_map.1 hmem with ⟨j, hj, hje⟩
  exact ⟨j, List.mem_range.1 hj, hje.symm⟩

theorem generatedInv_fresh {s : Store}
    (h3 : ∀ bid, instNumsOf bid s =
      (List.range (instNumsOf bid s).length).map fun j => invNumStr bid (j + 1))
    (bid : Nat) (cond : String) :
    generatedInv ⟨bid, "", cond, true⟩ s =
      some (invNumStr bid ((instNumsOf bid s).length + 1)) := by
  unfold generatedInv
  rw [if_pos rfl]
  cases hl : lastInstanceOf bid s with
  | none =>
    have hnil : instNumsOf bid s = [] := by
      unfold lastInstanceOf at hl
      unfold instNumsOf
      rcases hfe : (s.insts.filter fun p => p.2.bookId == bid) with _ | ⟨x, xs⟩
      · rw [hfe]
        rfl
      · rw [hfe] at hl
        simp at hl
    rw [hnil]
    rfl
  | some last =>
    have h1 : ((s.insts.filter fun p => p.2.bookId == bid).getLast?).map (fun p => p.2) = some last := by
      rw [← getLast?_map]
      exact hl
    rcases ho : (s.insts.filter fun p => p.2.bookId == bid).getLast? with _ | pl
    · rw [ho] at h1; cases h1
    · rw [ho] at h1
      have hpl : pl.2 = last := by simpa using h1
      have hlast : (instNumsOf bid s).getLast? = some last.inventory_number := by
        unfold instNumsOf
        rw [getLast?_map, ho]
        simp [hpl]
      have hk : 0 < (instNumsOf bid s).length := by
        rcases hn : instNumsOf bid s with _ | ⟨x, xs⟩
        · rw [hn] at hlast; cases hlast
        · simp
      obtain ⟨m, hm⟩ : ∃ m, (instNumsOf bid s).length = m + 1 :=
        ⟨_, (Nat.succ_pred_eq_of_pos hk).symm⟩
      have hlv : last.inventory_number = invNumStr bid ((instNumsOf bid s).length) := by
        have h3b := h3 bid
        rw [h3b, hm, List.range_succ, List.map_append] at hlast
        simp only [List.map_cons, List.map_nil] at hlast
        rw [List.getLast?_concat] at hlast
        rw [hm]
        exact (Option.some.inj hlast).symm
      show Option.map (fun k => invNumStr bid (k + 1)) (parseDecimal (afterLastDash last.inventory_number)) = some (invNumStr bid ((instNumsOf bid s).length + 1))
      rw [hlv, parse_afterLastDash_invNum]
      rfl

theorem numberingInv_of_update {s s2 : Store} {iid : Nat} {i i2 : BookInstance}
    (hs : NumberingInv s) (hlk : lookupA s.insts iid = some i)
    (hb : i2.bookId = i.bookId) (hv : i2.inventory_number = i.inventory_number)
    (hins : s2.insts = updateA s.insts iid i2) (hnii : s2.nextInstId = s.nextInstId) :
    NumberingInv s2 := by
  obtain ⟨hnd, hkb, h3, h4⟩ := hs
  refine ⟨?_, ?_, ?_, ?_⟩
  · rw [NodupKeys, hins, keysA_updateA]
    exact hnd
  · intro p hp
    rw [hins] at hp
    rw [hnii]
    rcases mem_updateA hp with ⟨rfl, hkm⟩ | ⟨hold, _⟩
    · exact keysA_mem_bound hkb hkm
    · exact hkb p hold
  · intro bid
    have he : instNumsOf bid s2 = instNumsOf bid s := by
      unfold instNumsOf
      rw [hins]
      exact filterMap_updateA hnd hlk (fun b => b.bookId == bid)
        (fun b => b.inventory_number) (by simp [hb]) (by simp [hv])
    rw [he]
    exact h3 bid
  · have he : s2.insts.map (fun p => p.2.inventory_number) =
        s.insts.map fun p => p.2.inventory_number := by
      rw [hins]
      exact map_updateA_eq hnd hlk (fun b => b.inventory_number) (by simp [hv])
    rw [he]
    exact h4

theorem numberingInv_applyOp {s : Store} (o : Op) (hs : NumberingInv s) :
    NumberingInv (applyOp s o) := by
  obtain ⟨hnd, hkb, h3, h4⟩ := hs
  cases o with
  | createBook t a => exact ⟨hnd, hkb, h3, h4⟩
  | createUser => exact ⟨hnd, hkb, h3, h4⟩
  | bookSave bid t a =>
    cases hlb : lookupA s.books bid with
    | none =>
      have hres : applyOp s (.bookSave bid t a) = s := by simp [applyOp, hlb]
      rw [hres]
      exact ⟨hnd, hkb, h3, h4⟩
    | some b0 =>
      have hres : applyOp s (.bookSave bid t a) =
          { s with books := updateA s.books bid (bookSaveFields ⟨(t : Int), (a : Int)⟩) } := by
        simp [applyOp, hlb]
      rw [hres]
      exact ⟨hnd, hkb, h3, h4⟩
  | createBorrow iid uid bd dd =>
    cases hcb : createBorrowing iid uid bd dd s with
    | error e =>
      have hres : applyOp s (.createBorrow iid uid bd dd) = s := by simp [applyOp, hcb]
      rw [hres]
      exact ⟨hnd, hkb, h3, h4⟩
    | ok s2 =>
      have hres : applyOp s (.createBorrow iid uid bd dd) = s2 := by simp [applyOp, hcb]
      rw [hres]
      rcases createBorrowing_ok_shape hcb with
        ⟨i, bk, i2, hli, hav, hbk2, hi2av, hi2b, hi2e, hbooks, hinsts, hbors, husers, hnii, hnbi, hnpk⟩
      have hne : i.inventory_number ≠ "" := by
        obtain ⟨j, hj, hje⟩ := numbering_mem_form h3 (lookupA_mem hli)
        rw [hje]
        exact invNumStr_ne_empty _ _
      have hi2 := hi2e hne
      exact numberingInv_of_update ⟨hnd, hkb, h3, h4⟩ hli (by rw [hi2]) (by rw [hi2]) hinsts hnii
  | markRet pk now =>
    cases hmk : markReturned pk now s with
    | error e =>
      have hres : applyOp s (.markRet pk now) = s := by simp [applyOp, hmk]
      rw [hres]
      exact ⟨hnd, hkb, h3, h4⟩
    | ok s2 =>
      have hres : applyOp s (.markRet pk now) = s2 := by simp [applyOp, hmk]
      rw [hres]
      rcases markReturned_ok_shape hmk with ⟨br, _, _, rfl⟩ |
        ⟨br, i, bk, i2, hbr, hret, hi, hbk2, hi2av, hi2b, hi2e, hbooks, hinsts, hbors, husers, hnii, hnbi, hnpk⟩
      · exact ⟨hnd, hkb, h3, h4⟩
      · have hne : i.inventory_number ≠ "" := by
          obtain ⟨j, hj, hje⟩ := numbering_mem_form h3 (lookupA_mem hi)
          rw [hje]
          exact invNumStr_ne_empty _ _
        have hi2 := hi2e hne
        exact numberingInv_of_update ⟨hnd, hkb, h3, h4⟩ hi (by rw [hi2]) (by rw [hi2]) hinsts hnii
  | createInstance bid cond =>
    cases hbs : bookInstanceSave none ⟨bid, "", cond, true⟩ s with
    | error e =>
      have hres : applyOp s (.createInstance bid cond) = s := by simp [applyOp, hbs]
      rw [hres]
      exact ⟨hnd, hkb, h3, h4⟩
    | ok s2 =>
      have hres : applyOp s (.createInstance bid cond) = s2 := by simp [applyOp, hbs]
      rw [hres]
      rcases bookInstanceSave_new_shape hbs with ⟨iv, hg, rfl⟩
      have hgv : iv = invNumStr bid ((instNumsOf bid s).length + 1) := by
        have hfr := generatedInv_fresh h3 bid cond
        rw [hg] at hfr
        exact Option.some.inj hfr
      subst hgv
      have hnums : ∀ bid2, instNumsOf bid2 { s with insts := s.insts ++ [(s.nextInstId, { bookId := bid, inventory_number := invNumStr bid ((instNumsOf bid s).length + 1), condition := cond, is_available := true })], nextInstId := s.nextInstId + 1 } = instNumsOf bid2 s ++ (if (bid == bid2) = true then [invNumStr bid ((instNumsOf bid s).length + 1)] else []) := by
        intro bid2
        unfold instNumsOf
        rw [List.filter_append, List.map_append]
        by_cases hb2 : (bid == bid2) = true
        · rw [if_pos hb2]
          simp [List.filter_cons, hb2]
        · rw [if_neg hb2]
          have : (bid == bid2) = false := by
            cases hx : (bid == bid2)
            · rfl
            · exact absurd hx hb2
          simp [List.filter_cons, this]
      refine ⟨?_, ?_, ?_, ?_⟩
      · rw [NodupKeys, keysA_append, keysA]
        apply List.Nodup.append hnd (List.nodup_singleton _)
        intro a ha hb2
        rcases List.mem_singleton.1 hb2 with rfl
        exact absurd (keysA_mem_bound hkb ha) (lt_irrefl _)
      · intro p hp
        rcases List.mem_append.1 hp with hold | hnew
        · exact Nat.lt_succ_of_lt (hkb p hold)
        · rcases List.mem_singleton.1 hnew with rfl
          exact Nat.lt_succ_self _
      · intro bid2
        rw [hnums bid2]
        by_cases hb2 : (bid == bid2) = true
        · rcases beq_iff_eq.1 hb2 with rfl
          rw [if_pos hb2, h3 bid, List.length_append]
          have hlen : ((List.range (instNumsOf bid s).length).map fun j => invNumStr bid (j + 1)).length = (instNumsOf bid s).length := by simp
          rw [hlen]
          show _ = (List.range ((instNumsOf bid s).length + 1)).map fun j => invNumStr bid (j + 1)
          rw [List.range_succ, List.map_append]
          rfl
        · rw [if_neg hb2, List.append_nil]
          exact h3 bid2
      · rw [List.map_append]
        have hsingle : ([(s.nextInstId, ({ bookId := bid, inventory_number := invNumStr bid ((instNumsOf bid s).length + 1), condition := cond, is_available := true } : BookInstance))].map fun p => p.2.inventory_number) = [invNumStr bid ((instNumsOf bid s).length + 1)] := rfl
        rw [hsingle]
        apply List.Nodup.append h4 (List.nodup_singleton _)
        intro a ha hb2
        rcases List.mem_singleton.1 hb2 with rfl
        rcases List.mem_map.1 ha with ⟨p, hpm, hpe⟩
        obtain ⟨j, hj, hje⟩ := numbering_mem_form h3 hpm
        rw [hje] at hpe
        obtain ⟨hbeq, hneq⟩ := invNumStr_inj hpe
        subst hbeq
        omega

theorem numberingInv_runOps (l : List Op) {s : Store} (hs : NumberingInv s) :
    NumberingInv (runOps l s) := by
  induction l generalizing s with
  | nil => exact hs
  | cons o rest ih => exact ih (numberingInv_applyOp o hs)

theorem numberingInv_init : NumberingInv initStore := by
  refine ⟨?_, ?_, ?_, ?_⟩ <;> simp [initStore, NodupKeys, keysA, instNumsOf]

/-- C7: at every reachable state, the instances of each book carry, in
creation order, exactly the generated numbers
`{book id padded to 3}-{sequence padded to 4}` for sequences 1..k (the
first instance gets 1, each next one gets 1 + the parsed numeric suffix
of the book's last-created instance), and consequently all inventory
numbers are pairwise distinct across the whole store. -/
theorem c7_inventory_numbers (l : List Op) (bid : Nat) :
    instNumsOf bid (runOps l initStore) =
      (List.range (instNumsOf bid (runOps l initStore)).length).map
        (fun j => invNumStr bid (j + 1)) ∧
    ((runOps l initStore).insts.map fun p => p.2.inventory_number).Nodup := by
  obtain ⟨hnd, hkb, h3, h4⟩ := numberingInv_runOps l numberingInv_init
  exact ⟨h3 bid, h4⟩

/-! ### Claims C6, C8, C10: the seed-command borrowing loop -/

theorem bool_ne_true_eq_false {b : Bool} (h : ¬ b = true) : b = false := by
  cases b
  · rfl
  · exact absurd rfl h

theorem lookupA_of_mem_nodup {α : Type} {l : List (Nat × α)} (hnd : NodupKeys l)
    {p : Nat × α} (hp : p ∈ l) : lookupA l p.1 = some p.2 := by
  induction l with
  | nil => cases hp
  | cons q rest ih =>
    obtain ⟨hqn, hndr⟩ := nodupKeys_cons hnd
    rcases List.mem_cons.1 hp with rfl | hrest
    · simp [lookupA]
    · have hne : q.1 ≠ p.1 := by
        intro he
        exact hqn (he ▸ List.mem_map.2 ⟨p, hrest, rfl⟩)
      simp only [lookupA, if_neg hne]
      exact ih hndr hrest

theorem getD_mod_mem {l : List Nat} (h : l.isEmpty = false) (n d : Nat) :
    l.getD (n % l.length) d ∈ l := by
  have hlen : 0 < l.length := by
    cases l with
    | nil => simp at h
    | cons a t => simp
  have hlt : n % l.length < l.length := Nat.mod_lt _ hlen
  show (l.get? (n % l.length)).getD d ∈ l
  rw [List.get?_eq_get hlt]
  exact List.get_mem l _ _

theorem lookupA_none_of_bound {α : Type} {l : List (Nat × α)} {k : Nat}
    (h : ∀ q ∈ l, q.1 < k) : lookupA l k = none := by
  induction l with
  | nil => rfl
  | cons q rest ih =>
    have hne : q.1 ≠ k := Nat.ne_of_lt (h q (List.mem_cons_self _ _))
    simp only [lookupA, if_neg hne]
    exact ih fun r hr => h r (List.mem_cons_of_mem _ hr)

/-- Explicit success run of `Borrowing.save` on an available instance (no
clamping hypothesis: the clamped book value is kept symbolic). -/
theorem createBorrowing_run {s : Store} {iid uid : Nat} {bd dd : Int} {i : BookInstance}
    {bk : Book} (hl : lookupA s.insts iid = some i) (hav : i.is_available = true)
    (hinv : i.inventory_number ≠ "") (hb : lookupA s.books i.bookId = some bk) :
    createBorrowing iid uid bd dd s = .ok { s with books := updateA s.books i.bookId (bookSaveFields { bk with available_copies := bk.available_copies - 1 }), insts := updateA s.insts iid { i with is_available := false }, borrows := s.borrows ++ [(s.nextPk, ⟨iid, uid, bd, dd, none, false, 0⟩)], nextPk := s.nextPk + 1 } := by
  simp [createBorrowing, borrowingSave, hl, hav, hb, bookInstanceSave, generatedInv, hinv]

/-- Explicit success run of `mark_as_returned` on an open borrowing. -/
theorem markReturned_run {s : Store} {pk : Nat} {now : Int} {br : Borrowing}
    {i : BookInstance} {bk : Book} (hbr : lookupA s.borrows pk = some br)
    (hret : br.is_returned = false) (hi : lookupA s.insts br.instId = some i)
    (hinv : i.inventory_number ≠ "") (hbk : lookupA s.books i.bookId = some bk) :
    markReturned pk now s = .ok { s with books := updateA s.books i.bookId (bookSaveFields { bk with available_copies := bk.available_copies + 1 }), insts := updateA s.insts br.instId { i with is_available := true }, borrows := updateA s.borrows pk { br with is_returned := true, return_date := some now } } := by
  simp [markReturned, hbr, hret, hi, hbk, bookInstanceSave, generatedInv, hinv, borrowingSave]

theorem countAvailL_update {l : List (Nat × BookInstance)} {iid : Nat} {i i2 : BookInstance}
    (hnd : NodupKeys l) (hli : lookupA l iid = some i) (hav : i.is_available = true)
    (h2 : i2.is_available = false) :
    ((updateA l iid i2).filter fun p => p.2.is_available).length + 1 =
    (l.filter fun p => p.2.is_available).length := by
  induction l with
  | nil => simp [lookupA] at hli
  | cons p rest ih =>
    obtain ⟨hpn, hndr⟩ := nodupKeys_cons hnd
    by_cases hp : p.1 = iid
    · have hpi : p.2 = i := by simpa [lookupA, hp] using hli
      have hur : updateA rest iid i2 = rest := updateA_not_mem i2 (hp ▸ hpn)
      rw [updateA_cons, if_pos hp, hur]
      rw [List.filter_cons, List.filter_cons]
      rw [if_neg (by simp [h2] : ¬ ((p.1, i2).2.is_available = true))]
      rw [if_pos (show p.2.is_available = true by rw [hpi]; exact hav)]
      simp
    · have hli2 : lookupA rest iid = some i := by simpa [lookupA, hp] using hli
      rw [updateA_cons, if_neg hp, List.filter_cons, List.filter_cons]
      by_cases hc : p.2.is_available = true
      · rw [if_pos hc, if_pos hc]
        simp only [List.length_cons]
        have := ih hndr hli2
        omega
      · rw [if_neg hc, if_neg hc]
        exact ih hndr hli2

theorem countAvail_eq (s : Store) :
    countAvail s = (s.insts.filter fun p => p.2.is_available).length := by
  unfold countAvail availIds
  rw [List.length_map]

theorem poolWf_availIds {s : Store} (hnd : NodupKeys s.insts) : PoolWf s (availIds s) := by
  intro iid hm
  unfold availIds at hm
  rcases List.mem_map.1 hm with ⟨p, hpf, rfl⟩
  obtain ⟨hpm, hpa⟩ := List.mem_filter.1 hpf
  exact ⟨p.2, lookupA_of_mem_nodup hnd hpm, hpa⟩

/-- One successful loop iteration: with a well-formed store and a pool of
available instances, the picked save cannot raise, the result state is
again well-formed with a valid pool, and — when the return branch is not
taken — the number of available instances drops by exactly one. -/
theorem loopStep_ok {c : Choice} {users : List Nat} {s : Store} {pool2 : List Nat}
    {created tries2 : Nat} (hwf : WfStore s) (hpw : PoolWf s pool2)
    (hne : pool2.isEmpty = false) :
    ∃ s3 pool3, loopStep c users s pool2 created tries2 = .inr (s3, pool3) ∧
      WfStore s3 ∧ PoolWf s3 pool3 ∧
      (c.retFlag = false → countAvail s3 + 1 = countAvail s) := by
  obtain ⟨hnd, hrows, hbnd⟩ := hwf
  have hmem : pool2.getD (c.instIdx % pool2.length) 0 ∈ pool2 := getD_mod_mem hne _ _
  obtain ⟨i, hli, hav⟩ := hpw _ hmem
  obtain ⟨hbks, hinv⟩ := hrows _ (lookupA_mem hli)
  obtain ⟨bk, hbk⟩ := Option.isSome_iff_exists.1 hbks
  cases hcb : createBorrowing (pool2.getD (c.instIdx % pool2.length) 0)
      (users.getD (c.userIdx % users.length) 0) c.borrowDate c.dueDate s with
  | error e =>
    rw [createBorrowing_run hli hav hinv hbk] at hcb
    cases hcb
  | ok s2 =>
    rcases createBorrowing_ok_shape hcb with
      ⟨i0, bk0, i2, hli0, hav0, hbk0, hi2av, hi2b, hi2e, hbooks, hinsts, hbors, husers, hnii, hnbi, hnpk⟩
    have hinv0 : i0.inventory_number ≠ "" := (hrows _ (lookupA_mem hli0)).2
    have hi2eq := hi2e hinv0
    have hwf2 : WfStore s2 := by
      refine ⟨?_, ?_, ?_⟩
      · rw [NodupKeys, hinsts, keysA_updateA]
        exact hnd
      · intro p hp
        rw [hinsts] at hp
        have hbkeys : keysA s2.books = keysA s.books := by rw [hbooks, keysA_updateA]
        rcases mem_updateA hp with ⟨rfl, _⟩ | ⟨hold, _⟩
        · constructor
          · rw [lookupA_isSome_iff, hbkeys, hi2b, ← lookupA_isSome_iff]
            exact Option.isSome_iff_exists.2 ⟨bk0, hbk0⟩
          · rw [hi2eq]
            exact hinv0
        · obtain ⟨hso, hiv⟩ := hrows p hold
          constructor
          · rw [lookupA_isSome_iff, hbkeys, ← lookupA_isSome_iff]
            exact hso
          · exact hiv
      · intro q hq
        rw [hbors] at hq
        rw [hnpk]
        rcases List.mem_append.1 hq with hold | hnew
        · exact Nat.lt_succ_of_lt (hbnd q hold)
        · rcases List.mem_singleton.1 hnew with rfl
          exact Nat.lt_succ_self _
    have hlkne : ∀ j, j ≠ pool2.getD (c.instIdx % pool2.length) 0 →
        lookupA s2.insts j = lookupA s.insts j := by
      intro j hj
      rw [hinsts]
      exact lookupA_updateA_ne _ _ _ _ hj
    cases hrf : c.retFlag with
    | false =>
      refine ⟨s2, pool2.filter fun j => j != pool2.getD (c.instIdx % pool2.length) 0, ?_, hwf2, ?_, ?_⟩
      · unfold loopStep
        rw [hne]
        simp only [Bool.false_eq_true, if_false, hcb, hrf]
      · intro j hj
        obtain ⟨hjm, hjne'⟩ := List.mem_filter.1 hj
        have hjne : j ≠ pool2.getD (c.instIdx % pool2.length) 0 := by
          simpa [bne_iff_ne] using hjne'
        obtain ⟨ij, hlij, havj⟩ := hpw j hjm
        exact ⟨ij, (hlkne j hjne).trans hlij, havj⟩
      · intro _
        rw [countAvail_eq, countAvail_eq, hinsts]
        exact countAvailL_update hnd hli0 hav0 hi2av
    | true =>
      have hbr2 : lookupA s2.borrows s.nextPk =
          some ⟨pool2.getD (c.instIdx % pool2.length) 0, users.getD (c.userIdx % users.length) 0, c.borrowDate, c.dueDate, none, false, 0⟩ := by
        rw [hbors, lookupA_append_right _ (lookupA_none_of_bound hbnd)]
        simp [lookupA]
      have hi2l : lookupA s2.insts (pool2.getD (c.instIdx % pool2.length) 0) = some i2 := by
        rw [hinsts, lookupA_updateA_self, hli0]
        rfl
      have hinv2 : i2.inventory_number ≠ "" := by
        rw [hi2eq]
        exact hinv0
      have hbk2 : lookupA s2.books i2.bookId =
          some (bookSaveFields { bk0 with available_copies := bk0.available_copies - 1 }) := by
        rw [hi2b, hbooks, lookupA_updateA_self, hbk0]
        rfl
      cases hmk : markReturned s.nextPk c.retDate s2 with
      | error e =>
        rw [markReturned_run hbr2 rfl hi2l hinv2 hbk2] at hmk
        cases hmk
      | ok s3 =>
        rcases markReturned_ok_shape hmk with ⟨br, hbrx, hbrr, rfl⟩ |
          ⟨br, i3, bk3, i4, hbrx, hbrr, hi3, hbk3, hi4av, hi4b, hi4e, hbooks3, hinsts3, hbors3, husers3, hnii3, hnbi3, hnpk3⟩
        · rw [hbr2] at hbrx
          cases hbrx
          cases hbrr
        · have hbrval := Option.some.inj (hbr2.symm.trans hbrx)
          have hwf3 : WfStore s3 := by
            obtain ⟨hnd2, hrows2, hbnd2⟩ := hwf2
            refine ⟨?_, ?_, ?_⟩
            · rw [NodupKeys, hinsts3, keysA_updateA]
              exact hnd2
            · intro p hp
              rw [hinsts3] at hp
              have hbkeys : keysA s3.books = keysA s2.books := by rw [hbooks3, keysA_updateA]
              rcases mem_updateA hp with ⟨rfl, _⟩ | ⟨hold, _⟩
              · obtain ⟨hso, hiv⟩ := hrows2 _ (lookupA_mem hi3)
                constructor
                · rw [lookupA_isSome_iff, hbkeys, hi4b, ← lookupA_isSome_iff]
                  exact hso
                · rw [hi4e hiv]
                  exact hiv
              · obtain ⟨hso, hiv⟩ := hrows2 p hold
                constructor
                · rw [lookupA_isSome_iff, hbkeys, ← lookupA_isSome_iff]
                  exact hso
                · exact hiv
            · intro q hq
              rw [hbors3] at hq
              rw [hnpk3]
              rcases mem_updateA hq with ⟨rfl, _⟩ | ⟨hold, _⟩
              · exact hbnd2 (s.nextPk, br) (lookupA_mem hbrx)
              · exact hbnd2 q hold
          refine ⟨s3, pool2.filter fun j => j != pool2.getD (c.instIdx % pool2.length) 0, ?_, hwf3, ?_, ?_⟩
          · unfold loopStep
            rw [hne]
            simp only [Bool.false_eq_true, if_false, hcb, hrf, eq_self_iff_true, if_true, hmk]
          · intro j hj
            obtain ⟨hjm, hjne'⟩ := List.mem_filter.1 hj
            have hjne : j ≠ pool2.getD (c.instIdx % pool2.length) 0 := by
              simpa [bne_iff_ne] using hjne'
            obtain ⟨ij, hlij, havj⟩ := hpw j hjm
            refine ⟨ij, ?_, havj⟩
            rw [hinsts3]
            have hbrinst : br.instId = pool2.getD (c.instIdx % pool2.length) 0 := by
              rw [← hbrval]
            rw [hbrinst]
            rw [lookupA_updateA_ne _ _ _ _ hjne]
            exact (hlkne j hjne).trans hlij
          · intro hcon
            exact Bool.noConfusion hcon

/-- Fuel induction for the loop: under a well-formed store and pool, the
loop never raises, performs at most `fuel` further tries, never exceeds
the requested count, and stops either having created `count` borrowings,
or having exhausted its tries, or through the empty-refresh break. -/
theorem loopGo_props (rho : Nat → Choice) (users : List Nat) (count : Nat) :
    ∀ (fuel : Nat) (s : Store) (pool : List Nat) (created tries : Nat),
      WfStore s → PoolWf s pool → created ≤ count →
      (createBorrowingsGo rho users count fuel s pool created tries).raised = false ∧
      (createBorrowingsGo rho users count fuel s pool created tries).tries ≤ tries + fuel ∧
      (createBorrowingsGo rho users count fuel s pool created tries).created ≤ count ∧
      ((createBorrowingsGo rho users count fuel s pool created tries).created = count ∨
       (createBorrowingsGo rho users count fuel s pool created tries).tries = tries + fuel ∨
       (createBorrowingsGo rho users count fuel s pool created tries).brokeEmpty = true) := by
  intro fuel
  induction fuel with
  | zero =>
    intro s pool created tries _ _ hcle
    show (false = false ∧ tries ≤ tries + 0 ∧ created ≤ count ∧
      (created = count ∨ tries = tries + 0 ∨ false = true))
    exact ⟨rfl, by omega, hcle, Or.inr (Or.inl rfl)⟩
  | succ fuel ih =>
    intro s pool created tries hwf hpw hcle
    by_cases hcc : created < count
    · have hpw2 : PoolWf s (if pool.isEmpty then availIds s else pool) := by
        by_cases hpe : pool.isEmpty
        · rw [if_pos hpe]
          exact poolWf_availIds hwf.1
        · rw [if_neg hpe]
          exact hpw
      by_cases hp2e : (if pool.isEmpty then availIds s else pool).isEmpty = true
      · have hstep : loopStep (rho tries) users s (if pool.isEmpty then availIds s else pool) created (tries + 1) = .inl ⟨s, (if pool.isEmpty then availIds s else pool), created, tries + 1, false, true⟩ := by
          unfold loopStep
          rw [if_pos hp2e]
        simp only [createBorrowingsGo]
        rw [if_pos hcc, hstep]
        show (false = false ∧ tries + 1 ≤ tries + (fuel + 1) ∧ created ≤ count ∧
          (created = count ∨ tries + 1 = tries + (fuel + 1) ∨ true = true))
        exact ⟨rfl, by omega, hcle, Or.inr (Or.inr rfl)⟩
      · obtain ⟨s3, pool3, hstep, hwf3, hpw3, _⟩ :=
          @loopStep_ok (rho tries) users s (if pool.isEmpty then availIds s else pool)
            created (tries + 1) hwf hpw2 (bool_ne_true_eq_false hp2e)
        have hih := ih s3 pool3 (created + 1) (tries + 1) hwf3 hpw3 (by omega)
        simp only [createBorrowingsGo]
        rw [if_pos hcc, hstep]
        show ((createBorrowingsGo rho users count fuel s3 pool3 (created + 1) (tries + 1)).raised = false ∧
          (createBorrowingsGo rho users count fuel s3 pool3 (created + 1) (tries + 1)).tries ≤ tries + (fuel + 1) ∧
          (createBorrowingsGo rho users count fuel s3 pool3 (created + 1) (tries + 1)).created ≤ count ∧
          ((createBorrowingsGo rho users count fuel s3 pool3 (created + 1) (tries + 1)).created = count ∨
           (createBorrowingsGo rho users count fuel s3 pool3 (created + 1) (tries + 1)).tries = tries + (fuel + 1) ∨
           (createBorrowingsGo rho users count fuel s3 pool3 (created + 1) (tries + 1)).brokeEmpty = true))
        obtain ⟨h1, h2, h3, h4⟩ := hih
        refine ⟨h1, by omega, h3, ?_⟩
        rcases h4 with h | h | h
        · exact Or.inl h
        · exact Or.inr (Or.inl (by omega))
        · exact Or.inr (Or.inr h)
    · simp only [createBorrowingsGo]
      rw [if_neg hcc]
      show (false = false ∧ tries ≤ tries + (fuel + 1) ∧ created ≤ count ∧
        (created = count ∨ tries = tries + (fuel + 1) ∨ false = true))
      exact ⟨rfl, by omega, hcle, Or.inl (by omega)⟩

/-- When no iteration takes the mark-returned branch, each created
borrowing permanently consumes one available instance, so the loop can
never create more borrowings than there were available instances. -/
theorem loopGo_created_bound (rho : Nat → Choice) (users : List Nat) (count : Nat)
    (hnr : ∀ k, (rho k).retFlag = false) :
    ∀ (fuel : Nat) (s : Store) (pool : List Nat) (created tries : Nat),
      WfStore s → PoolWf s pool →
      (createBorrowingsGo rho users count fuel s pool created tries).created ≤
        created + countAvail s := by
  intro fuel
  induction fuel with
  | zero =>
    intro s pool created tries _ _
    show created ≤ created + countAvail s
    omega
  | succ fuel ih =>
    intro s pool created tries hwf hpw
    by_cases hcc : created < count
    · have hpw2 : PoolWf s (if pool.isEmpty then availIds s else pool) := by
        by_cases hpe : pool.isEmpty
        · rw [if_pos hpe]
          exact poolWf_availIds hwf.1
        · rw [if_neg hpe]
          exact hpw
      by_cases hp2e : (if pool.isEmpty then availIds s else pool).isEmpty = true
      · have hstep : loopStep (rho tries) users s (if pool.isEmpty then availIds s else pool) created (tries + 1) = .inl ⟨s, (if pool.isEmpty then availIds s else pool), created, tries + 1, false, true⟩ := by
          unfold loopStep
          rw [if_pos hp2e]
        show ((createBorrowingsGo rho users count (fuel + 1) s pool created tries).created ≤ created + countAvail s)
        simp only [createBorrowingsGo]
        rw [if_pos hcc, hstep]
        show created ≤ created + countAvail s
        omega
      · obtain ⟨s3, pool3, hstep, hwf3, hpw3, hcnt3⟩ :=
          @loopStep_ok (rho tries) users s (if pool.isEmpty then availIds s else pool)
            created (tries + 1) hwf hpw2 (bool_ne_true_eq_false hp2e)
        have hdrop := hcnt3 (hnr tries)
        have hih := ih s3 pool3 (created + 1) (tries + 1) hwf3 hpw3
        show ((createBorrowingsGo rho users count (fuel + 1) s pool created tries).created ≤ created + countAvail s)
        simp only [createBorrowingsGo]
        rw [if_pos hcc, hstep]
        show ((createBorrowingsGo rho users count fuel s3 pool3 (created + 1) (tries + 1)).created ≤ created + countAvail s)
        omega
    · show ((createBorrowingsGo rho users count (fuel + 1) s pool created tries).created ≤ created + countAvail s)
      simp only [createBorrowingsGo]
      rw [if_neg hcc]
      show created ≤ created + countAvail s
      omega

/-- C10: under database well-formedness (which the ORM guarantees), the
seed generator's borrowing loop never hits the `InstanceUnavailable`
branch (nor any other raising branch): every picked instance comes from a
pool whose members are available at selection time, and a refresh
re-filters on availability. -/
theorem c10_create_borrowings_never_raises (count : Nat) (rho : Nat → Choice) (s : Store)
    (hwf : WfStore s) : (create_borrowings count rho s).raised = false := by
  unfold create_borrowings
  by_cases hu : s.users.isEmpty = true
  · rw [if_pos hu]
  · rw [if_neg hu]
    by_cases ha : (availIds s).isEmpty = true
    · rw [if_pos ha]
    · rw [if_neg ha]
      exact (loopGo_props rho s.users count (count * 10) s (availIds s) 0 0 hwf
        (poolWf_availIds hwf.1) (Nat.zero_le _)).1

/-- Witness for C10 at a concrete well-formed store. -/
theorem c10_create_borrowings_never_raises_witness :
    WfStore demoAvailStore ∧
    (create_borrowings 5 alwaysReturnChoice demoAvailStore).raised = false :=
  ⟨by decide, c10_create_borrowings_never_raises 5 alwaysReturnChoice demoAvailStore (by decide)⟩

/-- C8: the borrowing loop always terminates, and does so for one of the
documented reasons — `count` successful borrowings were created, or all
`10 × count` tries were spent, or a refresh of the candidate pool found no
available instance (the `break`). -/
theorem c8_borrow_loop_bounded (count : Nat) (rho : Nat → Choice) (s : Store)
    (hwf : WfStore s) :
    (createBorrowingsGo rho s.users count (count * 10) s (availIds s) 0 0).tries ≤ count * 10 ∧
    ((createBorrowingsGo rho s.users count (count * 10) s (availIds s) 0 0).created = count ∨
     (createBorrowingsGo rho s.users count (count * 10) s (availIds s) 0 0).tries = count * 10 ∨
     (createBorrowingsGo rho s.users count (count * 10) s (availIds s) 0 0).brokeEmpty = true) := by
  obtain ⟨_, h2, _, h4⟩ := loopGo_props rho s.users count (count * 10) s (availIds s) 0 0 hwf
    (poolWf_availIds hwf.1) (Nat.zero_le _)
  refine ⟨by omega, ?_⟩
  rcases h4 with h | h | h
  · exact Or.inl h
  · exact Or.inr (Or.inl (by omega))
  · exact Or.inr (Or.inr h)

/-- Witness for C8 at a concrete well-formed store. -/
theorem c8_borrow_loop_bounded_witness :
    WfStore demoAvailStore ∧
    ((createBorrowingsGo alwaysReturnChoice demoAvailStore.users 5 (5 * 10) demoAvailStore (availIds demoAvailStore) 0 0).tries ≤ 5 * 10 ∧
     ((createBorrowingsGo alwaysReturnChoice demoAvailStore.users 5 (5 * 10) demoAvailStore (availIds demoAvailStore) 0 0).created = 5 ∨
      (createBorrowingsGo alwaysReturnChoice demoAvailStore.users 5 (5 * 10) demoAvailStore (availIds demoAvailStore) 0 0).tries = 5 * 10 ∨
      (createBorrowingsGo alwaysReturnChoice demoAvailStore.users 5 (5 * 10) demoAvailStore (availIds demoAvailStore) 0 0).brokeEmpty = true)) :=
  ⟨by decide, c8_borrow_loop_bounded 5 alwaysReturnChoice demoAvailStore (by decide)⟩

/-- C6 (amended): against a pool of exactly 2 available instances,
GenerateBorrowings(n=5) creates at most 2 borrowings and stops within 50
tries — provided no iteration takes the 55%-probability mark-returned
branch.  When a created borrowing IS marked returned, its instance is
genuinely available again and the storage refresh legitimately puts it
back in the pool, so runs with returns can reach all 5 (see the
counterexample); the loop terminates in every case. -/
theorem c6_scarce_pool_without_returns (rho : Nat → Choice) (s : Store)
    (hwf : WfStore s) (hnr : ∀ k, (rho k).retFlag = false)
    (hpool : countAvail s = 2) :
    (create_borrowings 5 rho s).created ≤ 2 ∧ (create_borrowings 5 rho s).tries ≤ 50 := by
  unfold create_borrowings
  by_cases hu : s.users.isEmpty = true
  · rw [if_pos hu]
    exact ⟨Nat.zero_le _, Nat.zero_le _⟩
  · rw [if_neg hu]
    by_cases ha : (availIds s).isEmpty = true
    · rw [if_pos ha]
      exact ⟨Nat.zero_le _, Nat.zero_le _⟩
    · rw [if_neg ha]
      have h1 := loopGo_created_bound rho s.users 5 hnr (5 * 10) s (availIds s) 0 0 hwf
        (poolWf_availIds hwf.1)
      have h2 := (loopGo_props rho s.users 5 (5 * 10) s (availIds s) 0 0 hwf
        (poolWf_availIds hwf.1) (Nat.zero_le _)).2.1
      constructor
      · omega
      · omega

/-- Witness for C6's amended statement at a concrete two-instance store
with a return-free choice stream. -/
theorem c6_scarce_pool_without_returns_witness :
    (WfStore demoAvailStore ∧ (∀ k, (neverReturnChoice k).retFlag = false) ∧
      countAvail demoAvailStore = 2) ∧
    ((create_borrowings 5 neverReturnChoice demoAvailStore).created ≤ 2 ∧
     (create_borrowings 5 neverReturnChoice demoAvailStore).tries ≤ 50) :=
  ⟨⟨by decide, fun _ => rfl, by decide⟩,
   c6_scarce_pool_without_returns neverReturnChoice demoAvailStore (by decide)
     (fun _ => rfl) (by decide)⟩

/-- Counterexample to C6 as stated: `demoAvailStore` has exactly 2
available instances and a user, yet with a choice stream that always
takes the mark-returned branch the run creates all 5 requested
borrowings — each returned instance re-enters the pool at the refresh, so
"at most 2 for every sequence of random choices" is false. -/
theorem c6_scarce_pool_cex :
    countAvail demoAvailStore = 2 ∧ demoAvailStore.users ≠ [] ∧
    (create_borrowings 5 alwaysReturnChoice demoAvailStore).created = 5 ∧
    ¬ ((create_borrowings 5 alwaysReturnChoice demoAvailStore).created ≤ 2) :=
  ⟨by decide, by decide, by decide, by decide⟩

end LibraryModel
